import Mathlib

/-!
Verification of the segment update-dispatch core
(`src/lib/collection/src/segment_manager/simple_segment_updater.rs`).

The updater itself (`SimpleSegmentUpdater`) is translated directly from the
Rust source.  Its collaborators — the `SegmentHolder` fan-out primitives and
the per-segment store behind the `SegmentEntry` trait — are not part of the
source tree; they are modelled from the specification (sections 4.1 and 6),
and every such definition carries a doc comment starting with
`Modelled from the spec:`.

In-place mutation through `&mut` references is embedded as explicit state
passing: every operation returns its result *together with* the post-state,
so that partially applied mutations remain observable even when the
operation returns an error (exactly as in the Rust original, where an early
`return Err(..)` leaves already-performed segment writes in place).
-/

namespace Qdrant

/-- Record identifier (`PointIdType`), an opaque totally ordered id. -/
abbrev PointIdType := Nat

/-- Operation sequence number (`SeqNumberType`). -/
abbrev SeqNumberType := Nat

/-- Vector payload (`VectorType`); the numeric content is opaque to the
updater, modelled with integer coordinates. -/
abbrev VectorType := List Int

/-- Payload key (`PayloadKeyType`). -/
abbrev PayloadKeyType := String

/-- Wire-side payload value (`PayloadInterface`); opaque to the updater. -/
abbrev PayloadInterface := String

/-- Stored payload value (`PayloadType`); opaque to the updater. -/
abbrev PayloadType := String

/-- `PayloadInterface::to_payload`: conversion from the wire-side payload
value to the stored form; opaque to the updater, modelled as the identity. -/
def toPayload (p : PayloadInterface) : PayloadType := p

/-- Segment-layer error (`OperationError`), carried as a message string. -/
abbrev OperationError := String

/-- Collection-layer error (`UpdateError`): `NotFound` for a point id absent
from every segment, `ServiceError` for infrastructure-level failures. -/
inductive UpdateError where
  | NotFound (missed_point_id : PointIdType)
  | ServiceError (error : String)
deriving DecidableEq

/-- `OperationResult<T>` of the collection layer. -/
abbrev OperationResult (α : Type) := Except UpdateError α

/-- Modelled from the spec: per-segment errors propagate from the segment
layer through the fan-out call into the collection layer; the conversion
wraps the segment error message as a service-level error. -/
def fromOperationError (e : OperationError) : UpdateError :=
  UpdateError.ServiceError e

/-- Modelled from the spec: interface consumed from a single segment
(`SegmentEntry` trait, spec section 6).  Every mutating call takes a
sequence number and returns whether it performed a genuine change (`false`
for a stale/duplicate sequence number) together with the segment post-state;
a failing call reports a segment-layer error. -/
structure SegmentEntry (σ : Type) where
  has_point : σ → PointIdType → Bool
  upsert_point : SeqNumberType → PointIdType → VectorType → σ →
    (Except OperationError Bool) × σ
  delete_point : SeqNumberType → PointIdType → σ →
    (Except OperationError Bool) × σ
  set_payload : SeqNumberType → PointIdType → PayloadKeyType → PayloadType → σ →
    (Except OperationError Bool) × σ
  delete_payload : SeqNumberType → PointIdType → PayloadKeyType → σ →
    (Except OperationError Bool) × σ
  clear_payload : SeqNumberType → PointIdType → σ →
    (Except OperationError Bool) × σ
  wipe_payload : SeqNumberType → σ → (Except OperationError Bool) × σ

/-! ## SegmentHolder primitives (modelled from the spec, section 4.1) -/

/-- Modelled from the spec: the ids among `ids` that segment `s` currently
holds (the holder asks each segment which of the requested ids it owns). -/
def heldIds {σ : Type} (E : SegmentEntry σ) (ids : List PointIdType) (s : σ) :
    List PointIdType :=
  ids.filter (fun id => E.has_point s id)

/-- Modelled from the spec: the inner loop of `apply_points` on one segment:
invoke the closure on each held id in order, counting genuine (non-stale)
applications; a closure error aborts the loop and is converted to a
collection-layer error, leaving already-performed writes in place.  The
closure threads an auxiliary accumulator `α`, embedding the mutable state the
Rust closures capture (e.g. the `updated_points` set). -/
def applyPointsOnSegment {σ α : Type}
    (F : PointIdType → σ → α → (Except OperationError Bool) × σ × α) :
    List PointIdType → σ → α → (Except UpdateError Nat) × σ × α
  | [], s, acc => (Except.ok 0, s, acc)
  | id :: rest, s, acc =>
      match F id s acc with
      | (Except.error e, s1, acc1) => (Except.error (fromOperationError e), s1, acc1)
      | (Except.ok b, s1, acc1) =>
          match applyPointsOnSegment F rest s1 acc1 with
          | (Except.error e, s2, acc2) => (Except.error e, s2, acc2)
          | (Except.ok n, s2, acc2) =>
              (Except.ok ((if b then 1 else 0) + n), s2, acc2)

/-- Modelled from the spec: `SegmentHolder::apply_points` — for every live
segment, determine which of the requested ids that segment currently holds
and invoke the closure on each such id under that segment's write access;
return the number of genuine applications.  An error aborts the fan-out,
leaving the remaining segments untouched. -/
def apply_points {σ α : Type} (E : SegmentEntry σ) (op_num : SeqNumberType)
    (ids : List PointIdType)
    (F : PointIdType → σ → α → (Except OperationError Bool) × σ × α) :
    List σ → α → (Except UpdateError Nat) × List σ × α
  | [], acc => (Except.ok 0, [], acc)
  | s :: rest, acc =>
      match applyPointsOnSegment F (heldIds E ids s) s acc with
      | (Except.error e, s1, acc1) => (Except.error e, s1 :: rest, acc1)
      | (Except.ok n, s1, acc1) =>
          match apply_points E op_num ids F rest acc1 with
          | (Except.error e, rest1, acc2) => (Except.error e, s1 :: rest1, acc2)
          | (Except.ok m, rest1, acc2) => (Except.ok (n + m), s1 :: rest1, acc2)

/-- Modelled from the spec: `SegmentHolder::apply_segments` — invoke the
closure on every live segment unconditionally, counting genuine
applications; an error aborts the fan-out. -/
def apply_segments {σ : Type} (G : σ → (Except OperationError Bool) × σ) :
    List σ → (Except UpdateError Nat) × List σ
  | [] => (Except.ok 0, [])
  | s :: rest =>
      match G s with
      | (Except.error e, s1) => (Except.error (fromOperationError e), s1 :: rest)
      | (Except.ok b, s1) =>
          match apply_segments G rest with
          | (Except.error e, rest1) => (Except.error e, s1 :: rest1)
          | (Except.ok n, rest1) => (Except.ok ((if b then 1 else 0) + n), s1 :: rest1)

/-- Modelled from the spec: `SegmentHolder::random_segment` picks one
arbitrarily chosen live segment (none when the segment set is empty).  The
uniform random choice is embedded as an explicit `choice` parameter taken
modulo the number of live segments, returning the chosen index. -/
def random_segment {σ : Type} (choice : Nat) (segs : List σ) : Option Nat :=
  if segs.isEmpty then none else some (choice % segs.length)

/-- Replace the element at index `i` by `f` applied to it (used to write the
chosen segment back into the holder's segment list). -/
def modifyAt {σ : Type} (f : σ → σ) : List σ → Nat → List σ
  | [], _ => []
  | s :: rest, 0 => f s :: rest
  | s :: rest, Nat.succ i => s :: modifyAt f rest i

/-! ## SimpleSegmentUpdater (translated from the source) -/

/-- The `updated_points: HashSet<PointIdType>` captured by the closures,
embedded as a duplicate-free list: `insert` adds the id unless present. -/
def insertSet (id : PointIdType) (s : List PointIdType) : List PointIdType :=
  if s.contains id then s else id :: s

/-- `SimpleSegmentUpdater::check_unprocessed_points`: the first requested
point (in input order) missing from the processed set yields a `NotFound`
error; otherwise the number of processed points is returned. -/
def check_unprocessed_points (points : List PointIdType)
    (processed : List PointIdType) : OperationResult Nat :=
  match points.find? (fun p => !processed.contains p) with
  | none => Except.ok processed.length
  | some missed_point => Except.error (UpdateError.NotFound missed_point)

/-- The `points_map: HashMap<PointIdType, &VectorType>` built by
`upsert_points` from `ids.zip(vectors)`; on duplicate ids the later binding
wins, as for `HashMap::collect`.  (Indexing a missing key panics in Rust;
the model returns the empty vector, unreachable when the id is requested
and the two input lists have equal length.) -/
def pointsMap (ids : List PointIdType) (vectors : List VectorType)
    (id : PointIdType) : VectorType :=
  match (List.zip ids vectors).reverse.find? (fun p => p.1 == id) with
  | some p => p.2
  | none => []

/-- The closure `upsert_points` passes to `apply_points`: record the id in
`updated_points`, then issue the segment's own upsert. -/
def upsertClosure {σ : Type} (E : SegmentEntry σ) (op_num : SeqNumberType)
    (pm : PointIdType → VectorType) :
    PointIdType → σ → List PointIdType →
      (Except OperationError Bool) × σ × List PointIdType :=
  fun id s updated =>
    let updated1 := insertSet id updated
    let r := E.upsert_point op_num id (pm id) s
    (r.1, r.2, updated1)

/-- The closure `delete_points` passes to `apply_points`. -/
def deleteClosure {σ : Type} (E : SegmentEntry σ) (op_num : SeqNumberType) :
    PointIdType → σ → Unit → (Except OperationError Bool) × σ × Unit :=
  fun id s _ =>
    let r := E.delete_point op_num id s
    (r.1, r.2, ())

/-- The residual loop of `upsert_points`: upsert every new point into the
chosen segment.  The Rust source discards the `Result` of each call
(line 66), so errors reported by these upserts are silently dropped and the
loop continues. -/
def residualUpserts {σ : Type} (E : SegmentEntry σ) (op_num : SeqNumberType)
    (pm : PointIdType → VectorType) : List PointIdType → σ → σ
  | [], s => s
  | id :: rest, s => residualUpserts E op_num pm rest (E.upsert_point op_num id (pm id) s).2

/-- `SimpleSegmentUpdater::upsert_points`: update each requested id in the
segments that hold it, then insert the residual (never-found) ids into one
segment chosen by `random_segment`; returns the count reported by the
fan-out.  `choice` stands for the updater's RNG draw. -/
def upsert_points {σ : Type} (E : SegmentEntry σ) (choice : Nat)
    (op_num : SeqNumberType) (ids : List PointIdType)
    (vectors : List VectorType) (segs : List σ) :
    (Except UpdateError Nat) × List σ :=
  let pm := pointsMap ids vectors
  match apply_points E op_num ids (upsertClosure E op_num pm) segs [] with
  | (Except.error e, segs1, _) => (Except.error e, segs1)
  | (Except.ok res, segs1, updated) =>
      let new_point_ids := ids.filter (fun x => !updated.contains x)
      match random_segment choice segs1 with
      | none =>
          (Except.error (UpdateError.ServiceError
            "No segments exists, expected at least one"), segs1)
      | some i =>
          (Except.ok res, modifyAt (residualUpserts E op_num pm new_point_ids) segs1 i)

/-- `SimpleSegmentUpdater::delete_points`: delete each requested id from the
segments that hold it; returns the number of points actually deleted. -/
def delete_points {σ : Type} (E : SegmentEntry σ) (op_num : SeqNumberType)
    (ids : List PointIdType) (segs : List σ) :
    (Except UpdateError Nat) × List σ :=
  let r := apply_points E op_num ids (deleteClosure E op_num) segs ()
  (r.1, r.2.1)

/-- The per-point loop of `set_payload`: apply every `(key, value)` pair via
the segment's set-payload call, AND-combining the per-key results
(`res = call? && res`); an error aborts the loop. -/
def setPayloadLoop {σ : Type} (E : SegmentEntry σ) (op_num : SeqNumberType)
    (id : PointIdType) :
    List (PayloadKeyType × PayloadInterface) → Bool → σ →
      (Except OperationError Bool) × σ
  | [], res, s => (Except.ok res, s)
  | (key, p) :: rest, res, s =>
      match E.set_payload op_num id key (toPayload p) s with
      | (Except.error e, s1) => (Except.error e, s1)
      | (Except.ok b, s1) => setPayloadLoop E op_num id rest (b && res) s1

/-- The closure `set_payload` passes to `apply_points`. -/
def setPayloadClosure {σ : Type} (E : SegmentEntry σ) (op_num : SeqNumberType)
    (payload : List (PayloadKeyType × PayloadInterface)) :
    PointIdType → σ → List PointIdType →
      (Except OperationError Bool) × σ × List PointIdType :=
  fun id s updated =>
    let updated1 := insertSet id updated
    let r := setPayloadLoop E op_num id payload true s
    (r.1, r.2, updated1)

/-- `SimpleSegmentUpdater::set_payload`: fan out over the points' owning
segments, then fail with `NotFound` if some requested point was found in no
segment; on success return the fan-out count (the completeness check's own
count is discarded). -/
def set_payload {σ : Type} (E : SegmentEntry σ) (op_num : SeqNumberType)
    (payload : List (PayloadKeyType × PayloadInterface))
    (points : List PointIdType) (segs : List σ) :
    (Except UpdateError Nat) × List σ :=
  match apply_points E op_num points (setPayloadClosure E op_num payload) segs [] with
  | (Except.error e, segs1, _) => (Except.error e, segs1)
  | (Except.ok res, segs1, updated) =>
      match check_unprocessed_points points updated with
      | Except.error e => (Except.error e, segs1)
      | Except.ok _ => (Except.ok res, segs1)

/-- The per-point loop of `delete_payload`: delete every listed key,
AND-combining the per-key results. -/
def deletePayloadLoop {σ : Type} (E : SegmentEntry σ) (op_num : SeqNumberType)
    (id : PointIdType) :
    List PayloadKeyType → Bool → σ → (Except OperationError Bool) × σ
  | [], res, s => (Except.ok res, s)
  | key :: rest, res, s =>
      match E.delete_payload op_num id key s with
      | (Except.error e, s1) => (Except.error e, s1)
      | (Except.ok b, s1) => deletePayloadLoop E op_num id rest (b && res) s1

/-- The closure `delete_payload` passes to `apply_points`. -/
def deletePayloadClosure {σ : Type} (E : SegmentEntry σ) (op_num : SeqNumberType)
    (keys : List PayloadKeyType) :
    PointIdType → σ → List PointIdType →
      (Except OperationError Bool) × σ × List PointIdType :=
  fun id s updated =>
    let updated1 := insertSet id updated
    let r := deletePayloadLoop E op_num id keys true s
    (r.1, r.2, updated1)

/-- `SimpleSegmentUpdater::delete_payload`. -/
def delete_payload {σ : Type} (E : SegmentEntry σ) (op_num : SeqNumberType)
    (points : List PointIdType) (keys : List PayloadKeyType) (segs : List σ) :
    (Except UpdateError Nat) × List σ :=
  match apply_points E op_num points (deletePayloadClosure E op_num keys) segs [] with
  | (Except.error e, segs1, _) => (Except.error e, segs1)
  | (Except.ok res, segs1, updated) =>
      match check_unprocessed_points points updated with
      | Except.error e => (Except.error e, segs1)
      | Except.ok _ => (Except.ok res, segs1)

/-- The closure `clear_payload` passes to `apply_points`. -/
def clearPayloadClosure {σ : Type} (E : SegmentEntry σ) (op_num : SeqNumberType) :
    PointIdType → σ → List PointIdType →
      (Except OperationError Bool) × σ × List PointIdType :=
  fun id s updated =>
    let updated1 := insertSet id updated
    let r := E.clear_payload op_num id s
    (r.1, r.2, updated1)

/-- `SimpleSegmentUpdater::clear_payload`. -/
def clear_payload {σ : Type} (E : SegmentEntry σ) (op_num : SeqNumberType)
    (points : List PointIdType) (segs : List σ) :
    (Except UpdateError Nat) × List σ :=
  match apply_points E op_num points (clearPayloadClosure E op_num) segs [] with
  | (Except.error e, segs1, _) => (Except.error e, segs1)
  | (Except.ok res, segs1, updated) =>
      match check_unprocessed_points points updated with
      | Except.error e => (Except.error e, segs1)
      | Except.ok _ => (Except.ok res, segs1)

/-- `SimpleSegmentUpdater::wipe_payload`. -/
def wipe_payload {σ : Type} (E : SegmentEntry σ) (op_num : SeqNumberType)
    (segs : List σ) : (Except UpdateError Nat) × List σ :=
  apply_segments (E.wipe_payload op_num) segs

/-- `PointOps`: the point-operation family. -/
inductive PointOps where
  | UpsertPoints (ids : List PointIdType) (vectors : List VectorType)
  | DeletePoints (ids : List PointIdType)

/-- `PayloadOps`: the payload-operation family. -/
inductive PayloadOps where
  | SetPayload (payload : List (PayloadKeyType × PayloadInterface))
      (points : List PointIdType)
  | DeletePayload (keys : List PayloadKeyType) (points : List PointIdType)
  | ClearPayload (points : List PointIdType)
  | WipePayload

/-- `CollectionUpdateOperations`: the tagged mutation operation. -/
inductive CollectionUpdateOperations where
  | PointOperation (point_operation : PointOps)
  | PayloadOperation (payload_operation : PayloadOps)

/-- `SimpleSegmentUpdater::process_point_operation`. -/
def process_point_operation {σ : Type} (E : SegmentEntry σ) (choice : Nat)
    (op_num : SeqNumberType) (point_operation : PointOps) (segs : List σ) :
    (Except UpdateError Nat) × List σ :=
  match point_operation with
  | PointOps.UpsertPoints ids vectors => upsert_points E choice op_num ids vectors segs
  | PointOps.DeletePoints ids => delete_points E op_num ids segs

/-- `SimpleSegmentUpdater::process_payload_operation`. -/
def process_payload_operation {σ : Type} (E : SegmentEntry σ)
    (op_num : SeqNumberType) (payload_operation : PayloadOps) (segs : List σ) :
    (Except UpdateError Nat) × List σ :=
  match payload_operation with
  | PayloadOps.SetPayload payload points => set_payload E op_num payload points segs
  | PayloadOps.DeletePayload keys points => delete_payload E op_num points keys segs
  | PayloadOps.ClearPayload points => clear_payload E op_num points segs
  | PayloadOps.WipePayload => wipe_payload E op_num segs

/-- `SegmentUpdater::update` for `SimpleSegmentUpdater`: pure dispatch. -/
def update {σ : Type} (E : SegmentEntry σ) (choice : Nat)
    (op_num : SeqNumberType) (operation : CollectionUpdateOperations)
    (segs : List σ) : (Except UpdateError Nat) × List σ :=
  match operation with
  | CollectionUpdateOperations.PointOperation point_operation =>
      process_point_operation E choice op_num point_operation segs
  | CollectionUpdateOperations.PayloadOperation payload_operation =>
      process_payload_operation E op_num payload_operation segs

/-! ## A concrete segment store (modelled from the spec, sections 2, 5, 6)

The segment internals are out of scope of the source tree; the spec fixes
their observable contract: a segment is a self-contained store of records,
idempotent with respect to sequence numbers — it ignores (and reports no new
change for) any operation whose sequence number is not newer than the last
one it applied to the record — and reports a genuine change otherwise. -/

/-- A stored record: last applied sequence number, vector, key-value payload. -/
structure Record where
  version : SeqNumberType
  vector : VectorType
  payload : List (PayloadKeyType × PayloadType)
deriving DecidableEq

/-- Modelled from the spec: a segment is a store of records keyed by point
id, embedded as an association list with unique keys. -/
abbrev Segment := List (PointIdType × Record)

/-- Look up the record held for `id`. -/
def segLookup (id : PointIdType) : Segment → Option Record
  | [] => none
  | (pid, r) :: rest => if pid = id then some r else segLookup id rest

/-- Insert or replace the record for `id`. -/
def segInsert (id : PointIdType) (r : Record) : Segment → Segment
  | [] => [(id, r)]
  | (pid, r0) :: rest =>
      if pid = id then (pid, r) :: rest else (pid, r0) :: segInsert id r rest

/-- Remove any record held for `id`. -/
def segRemove (id : PointIdType) : Segment → Segment
  | [] => []
  | (pid, r0) :: rest =>
      if pid = id then segRemove id rest else (pid, r0) :: segRemove id rest

/-- Whether the segment holds a record for `id`. -/
def segHolds (s : Segment) (id : PointIdType) : Bool :=
  (segLookup id s).isSome

/-- Insert or replace a payload key. -/
def payloadInsert (key : PayloadKeyType) (value : PayloadType) :
    List (PayloadKeyType × PayloadType) → List (PayloadKeyType × PayloadType)
  | [] => [(key, value)]
  | (k, v) :: rest =>
      if k = key then (k, value) :: rest else (k, v) :: payloadInsert key value rest

/-- Remove a payload key. -/
def payloadRemove (key : PayloadKeyType) :
    List (PayloadKeyType × PayloadType) → List (PayloadKeyType × PayloadType)
  | [] => []
  | (k, v) :: rest =>
      if k = key then payloadRemove key rest else (k, v) :: payloadRemove key rest

/-- Modelled from the spec: segment `upsert` — insert-or-replace the record,
ignored (no change reported) when the sequence number is not newer than the
record's last applied one. -/
def Segment.upsertPoint (op_num : SeqNumberType) (id : PointIdType)
    (vector : VectorType) (s : Segment) : Bool × Segment :=
  match segLookup id s with
  | none => (true, segInsert id ⟨op_num, vector, []⟩ s)
  | some r =>
      if op_num ≤ r.version then (false, s)
      else (true, segInsert id ⟨op_num, vector, r.payload⟩ s)

/-- Modelled from the spec: segment `delete`, idempotent via the sequence
number; deleting an id the segment does not hold reports no change. -/
def Segment.deletePoint (op_num : SeqNumberType) (id : PointIdType)
    (s : Segment) : Bool × Segment :=
  match segLookup id s with
  | none => (false, s)
  | some r => if op_num ≤ r.version then (false, s) else (true, segRemove id s)

/-- Modelled from the spec: segment `set_payload` for one key. -/
def Segment.setPayloadKey (op_num : SeqNumberType) (id : PointIdType)
    (key : PayloadKeyType) (value : PayloadType) (s : Segment) : Bool × Segment :=
  match segLookup id s with
  | none => (false, s)
  | some r =>
      if op_num ≤ r.version then (false, s)
      else (true, segInsert id ⟨op_num, r.vector, payloadInsert key value r.payload⟩ s)

/-- Modelled from the spec: segment `delete_payload` for one key. -/
def Segment.deletePayloadKey (op_num : SeqNumberType) (id : PointIdType)
    (key : PayloadKeyType) (s : Segment) : Bool × Segment :=
  match segLookup id s with
  | none => (false, s)
  | some r =>
      if op_num ≤ r.version then (false, s)
      else (true, segInsert id ⟨op_num, r.vector, payloadRemove key r.payload⟩ s)

/-- Modelled from the spec: segment `clear_payload` for one point. -/
def Segment.clearPayloadPoint (op_num : SeqNumberType) (id : PointIdType)
    (s : Segment) : Bool × Segment :=
  match segLookup id s with
  | none => (false, s)
  | some r =>
      if op_num ≤ r.version then (false, s)
      else (true, segInsert id ⟨op_num, r.vector, []⟩ s)

/-- Modelled from the spec: segment `wipe_payload` — remove the payload of
every record the segment holds whose record the sequence number is still
fresh for; reports a change when any record was affected. -/
def Segment.wipePayloadAll (op_num : SeqNumberType) (s : Segment) : Bool × Segment :=
  (s.any (fun p => decide (p.2.version < op_num)),
   s.map (fun p =>
     if p.2.version < op_num then (p.1, ⟨op_num, p.2.vector, []⟩) else p))

/-- Wrap an infallible segment operation into the fallible interface shape. -/
def okWrap {σ : Type} (f : σ → Bool × σ) : σ → (Except OperationError Bool) × σ :=
  fun s => (Except.ok (f s).1, (f s).2)

/-- Modelled from the spec: the concrete segment store packaged behind the
`SegmentEntry` interface; its operations never fail. -/
def specSegmentEntry : SegmentEntry Segment where
  has_point s id := segHolds s id
  upsert_point op_num id vector := okWrap (Segment.upsertPoint op_num id vector)
  delete_point op_num id := okWrap (Segment.deletePoint op_num id)
  set_payload op_num id key value := okWrap (Segment.setPayloadKey op_num id key value)
  delete_payload op_num id key := okWrap (Segment.deletePayloadKey op_num id key)
  clear_payload op_num id := okWrap (Segment.clearPayloadPoint op_num id)
  wipe_payload op_num := okWrap (Segment.wipePayloadAll op_num)

/-- A point id is held by some live segment. -/
def heldByAny (segs : List Segment) (id : PointIdType) : Bool :=
  segs.any (fun s => segHolds s id)

/-- The membership invariant: every record identifier is held by at most one
segment. -/
def UniqueHold (segs : List Segment) : Prop :=
  ∀ id : PointIdType, segs.countP (fun s => segHolds s id) ≤ 1

/-- The sequence number is fresh for every record currently stored: it is
strictly greater than every record's last applied sequence number. -/
def FreshFor (op_num : SeqNumberType) (segs : List Segment) : Prop :=
  ∀ s ∈ segs, ∀ p ∈ s, (Prod.snd p).version < op_num

/-! ## Fan-out characterization

The closures the updater passes to `apply_points` are total on the concrete
store and factor into a reported-change function `Fb`, a state effect `Fs`
and an accumulator effect `Fa`; under that shape the fan-out is a pure fold,
characterized once and for all here. -/

/-- State after running effect `Fs` over a list of ids on one segment. -/
def segFoldState {σ : Type} (Fs : PointIdType → σ → σ) :
    List PointIdType → σ → σ
  | [], s => s
  | id :: rest, s => segFoldState Fs rest (Fs id s)

/-- Number of genuine changes reported while running over a list of ids. -/
def segFoldCount {σ : Type} (Fb : PointIdType → σ → Bool)
    (Fs : PointIdType → σ → σ) : List PointIdType → σ → Nat
  | [], _ => 0
  | id :: rest, s => (if Fb id s then 1 else 0) + segFoldCount Fb Fs rest (Fs id s)

theorem applyPointsOnSegment_eq {σ α : Type}
    (F : PointIdType → σ → α → (Except OperationError Bool) × σ × α)
    (Fb : PointIdType → σ → Bool) (Fs : PointIdType → σ → σ)
    (Fa : PointIdType → α → α)
    (hF : ∀ id s acc, F id s acc = (Except.ok (Fb id s), Fs id s, Fa id acc)) :
    ∀ (H : List PointIdType) (s : σ) (acc : α),
      applyPointsOnSegment F H s acc =
        (Except.ok (segFoldCount Fb Fs H s), segFoldState Fs H s,
         H.foldl (fun a id => Fa id a) acc) := by
  intro H
  induction H with
  | nil => intro s acc; rfl
  | cons id rest ih =>
      intro s acc
      simp only [applyPointsOnSegment, hF, ih, segFoldCount, segFoldState,
        List.foldl]

theorem apply_points_eq {σ α : Type} (E : SegmentEntry σ)
    (op_num : SeqNumberType) (ids : List PointIdType)
    (F : PointIdType → σ → α → (Except OperationError Bool) × σ × α)
    (Fb : PointIdType → σ → Bool) (Fs : PointIdType → σ → σ)
    (Fa : PointIdType → α → α)
    (hF : ∀ id s acc, F id s acc = (Except.ok (Fb id s), Fs id s, Fa id acc)) :
    ∀ (segs : List σ) (acc : α),
      apply_points E op_num ids F segs acc =
        (Except.ok ((segs.map (fun s => segFoldCount Fb Fs (heldIds E ids s) s)).sum),
         segs.map (fun s => segFoldState Fs (heldIds E ids s) s),
         segs.foldl (fun a s => (heldIds E ids s).foldl (fun a id => Fa id a) a) acc) := by
  intro segs
  induction segs with
  | nil => intro acc; rfl
  | cons s rest ih =>
      intro acc
      simp only [apply_points, applyPointsOnSegment_eq F Fb Fs Fa hF, ih,
        List.map, List.sum_cons, List.foldl]

/-! ### The concrete closures in factored form -/

theorem upsertClosure_spec (op_num : SeqNumberType) (pm : PointIdType → VectorType) :
    ∀ (id : PointIdType) (s : Segment) (acc : List PointIdType),
      upsertClosure specSegmentEntry op_num pm id s acc =
        (Except.ok (Segment.upsertPoint op_num id (pm id) s).1,
         (Segment.upsertPoint op_num id (pm id) s).2, insertSet id acc) := by
  intro id s acc; rfl

theorem deleteClosure_spec (op_num : SeqNumberType) :
    ∀ (id : PointIdType) (s : Segment) (acc : Unit),
      deleteClosure specSegmentEntry op_num id s acc =
        (Except.ok (Segment.deletePoint op_num id s).1,
         (Segment.deletePoint op_num id s).2, ()) := by
  intro id s acc; rfl

theorem clearPayloadClosure_spec (op_num : SeqNumberType) :
    ∀ (id : PointIdType) (s : Segment) (acc : List PointIdType),
      clearPayloadClosure specSegmentEntry op_num id s acc =
        (Except.ok (Segment.clearPayloadPoint op_num id s).1,
         (Segment.clearPayloadPoint op_num id s).2, insertSet id acc) := by
  intro id s acc; rfl

/-- Pure form of `setPayloadLoop` on the concrete store. -/
def setPayloadLoopCore (op_num : SeqNumberType) (id : PointIdType) :
    List (PayloadKeyType × PayloadInterface) → Bool → Segment → Bool × Segment
  | [], res, s => (res, s)
  | (key, p) :: rest, res, s =>
      setPayloadLoopCore op_num id rest
        ((Segment.setPayloadKey op_num id key (toPayload p) s).1 && res)
        (Segment.setPayloadKey op_num id key (toPayload p) s).2

theorem setPayloadLoop_spec (op_num : SeqNumberType) (id : PointIdType) :
    ∀ (payload : List (PayloadKeyType × PayloadInterface)) (res : Bool) (s : Segment),
      setPayloadLoop specSegmentEntry op_num id payload res s =
        (Except.ok (setPayloadLoopCore op_num id payload res s).1,
         (setPayloadLoopCore op_num id payload res s).2) := by
  intro payload
  induction payload with
  | nil => intro res s; rfl
  | cons kp rest ih =>
      intro res s
      cases kp with
      | mk key p => simp only [setPayloadLoop, setPayloadLoopCore, ih]; rfl

theorem setPayloadClosure_spec (op_num : SeqNumberType)
    (payload : List (PayloadKeyType × PayloadInterface)) :
    ∀ (id : PointIdType) (s : Segment) (acc : List PointIdType),
      setPayloadClosure specSegmentEntry op_num payload id s acc =
        (Except.ok (setPayloadLoopCore op_num id payload true s).1,
         (setPayloadLoopCore op_num id payload true s).2, insertSet id acc) := by
  intro id s acc
  simp only [setPayloadClosure, setPayloadLoop_spec]

/-- Pure form of `deletePayloadLoop` on the concrete store. -/
def deletePayloadLoopCore (op_num : SeqNumberType) (id : PointIdType) :
    List PayloadKeyType → Bool → Segment → Bool × Segment
  | [], res, s => (res, s)
  | key :: rest, res, s =>
      deletePayloadLoopCore op_num id rest
        ((Segment.deletePayloadKey op_num id key s).1 && res)
        (Segment.deletePayloadKey op_num id key s).2

theorem deletePayloadLoop_spec (op_num : SeqNumberType) (id : PointIdType) :
    ∀ (keys : List PayloadKeyType) (res : Bool) (s : Segment),
      deletePayloadLoop specSegmentEntry op_num id keys res s =
        (Except.ok (deletePayloadLoopCore op_num id keys res s).1,
         (deletePayloadLoopCore op_num id keys res s).2) := by
  intro keys
  induction keys with
  | nil => intro res s; rfl
  | cons key rest ih =>
      intro res s
      simp only [deletePayloadLoop, deletePayloadLoopCore, ih]; rfl

theorem deletePayloadClosure_spec (op_num : SeqNumberType)
    (keys : List PayloadKeyType) :
    ∀ (id : PointIdType) (s : Segment) (acc : List PointIdType),
      deletePayloadClosure specSegmentEntry op_num keys id s acc =
        (Except.ok (deletePayloadLoopCore op_num id keys true s).1,
         (deletePayloadLoopCore op_num id keys true s).2, insertSet id acc) := by
  intro id s acc
  simp only [deletePayloadClosure, deletePayloadLoop_spec]

/-! ### Association-list algebra of the concrete store -/

theorem segLookup_segInsert_self (id : PointIdType) (r : Record) :
    ∀ s : Segment, segLookup id (segInsert id r s) = some r := by
  intro s
  induction s with
  | nil => simp [segInsert, segLookup]
  | cons p rest ih =>
      cases p with
      | mk pid r0 =>
          by_cases h : pid = id
          · simp [segInsert, segLookup, h]
          · simp [segInsert, segLookup, h, ih]

theorem segLookup_segInsert_ne (id id' : PointIdType) (r : Record)
    (h : id' ≠ id) :
    ∀ s : Segment, segLookup id' (segInsert id r s) = segLookup id' s := by
  intro s
  induction s with
  | nil => simp [segInsert, segLookup, Ne.symm h]
  | cons p rest ih =>
      cases p with
      | mk pid r0 =>
          by_cases hp : pid = id
          · subst hp
            have hne : pid ≠ id' := fun hc => h (hc.symm)
            simp [segInsert, segLookup, hne]
          · by_cases hp' : pid = id'
            · simp [segInsert, segLookup, hp, hp', h]
            · simp [segInsert, segLookup, hp, hp', ih]

theorem segLookup_segRemove_self (id : PointIdType) :
    ∀ s : Segment, segLookup id (segRemove id s) = none := by
  intro s
  induction s with
  | nil => simp [segRemove, segLookup]
  | cons p rest ih =>
      cases p with
      | mk pid r0 =>
          by_cases hp : pid = id
          · simpa [segRemove, hp] using ih
          · simpa [segRemove, hp, segLookup] using ih

theorem segLookup_segRemove_ne (id id' : PointIdType) (h : id' ≠ id) :
    ∀ s : Segment, segLookup id' (segRemove id s) = segLookup id' s := by
  intro s
  induction s with
  | nil => simp [segRemove]
  | cons p rest ih =>
      cases p with
      | mk pid r0 =>
          by_cases hp : pid = id
          · subst hp
            have hne : pid ≠ id' := fun hc => h (hc.symm)
            simpa [segRemove, segLookup, hne] using ih
          · by_cases hp' : pid = id'
            · simp [segRemove, segLookup, hp, hp', h]
            · simpa [segRemove, segLookup, hp, hp'] using ih

theorem segHolds_segInsert (id x : PointIdType) (r : Record) (s : Segment) :
    segHolds (segInsert id r s) x = (segHolds s x || decide (x = id)) := by
  by_cases h : x = id
  · subst h
    simp [segHolds, segLookup_segInsert_self]
  · simp [segHolds, segLookup_segInsert_ne id x r h, h]

theorem segLookup_mem (id : PointIdType) (r : Record) :
    ∀ s : Segment, segLookup id s = some r → (id, r) ∈ s := by
  intro s
  induction s with
  | nil => intro h; simp [segLookup] at h
  | cons p rest ih =>
      cases p with
      | mk pid r0 =>
          intro h
          by_cases hp : pid = id
          · subst hp
            simp [segLookup] at h
            simp [h]
          · simp [segLookup, hp] at h
            exact List.mem_cons_of_mem _ (ih h)

/-! ### Atomic effect lemmas of the concrete segment operations -/

/-- The operation's sequence number is not newer than the record (if any)
stored for `id`: the segment will ignore it. -/
def staleFor (op_num : SeqNumberType) (s : Segment) (id : PointIdType) : Prop :=
  ∀ r : Record, segLookup id s = some r → op_num ≤ r.version

theorem upsertPoint_holds (op_num : SeqNumberType) (id : PointIdType)
    (v : VectorType) (s : Segment) (x : PointIdType) :
    segHolds (Segment.upsertPoint op_num id v s).2 x
      = (segHolds s x || decide (x = id)) := by
  unfold Segment.upsertPoint
  cases hl : segLookup id s with
  | none => simp [segHolds_segInsert]
  | some r =>
      by_cases hv : op_num ≤ r.version
      · by_cases hx : x = id
        · subst hx; simp [hv, segHolds, hl]
        · simp [hv, hx]
      · simp [hv, segHolds_segInsert]

theorem upsertPoint_lookup_ne (op_num : SeqNumberType) (id id' : PointIdType)
    (v : VectorType) (s : Segment) (h : id' ≠ id) :
    segLookup id' (Segment.upsertPoint op_num id v s).2 = segLookup id' s := by
  unfold Segment.upsertPoint
  cases hl : segLookup id s with
  | none => simp [segLookup_segInsert_ne id id' _ h]
  | some r =>
      by_cases hv : op_num ≤ r.version
      · simp [hv]
      · simp [hv, segLookup_segInsert_ne id id' _ h]

theorem deletePoint_lookup_ne (op_num : SeqNumberType) (id id' : PointIdType)
    (s : Segment) (h : id' ≠ id) :
    segLookup id' (Segment.deletePoint op_num id s).2 = segLookup id' s := by
  unfold Segment.deletePoint
  cases hl : segLookup id s with
  | none => simp
  | some r =>
      by_cases hv : op_num ≤ r.version
      · simp [hv]
      · simp [hv, segLookup_segRemove_ne id id' h]

theorem deletePoint_holds_imp (op_num : SeqNumberType) (id x : PointIdType)
    (s : Segment) :
    segHolds (Segment.deletePoint op_num id s).2 x = true → segHolds s x = true := by
  unfold Segment.deletePoint
  cases hl : segLookup id s with
  | none => simp
  | some r =>
      by_cases hv : op_num ≤ r.version
      · simp [hv]
      · by_cases hx : x = id
        · subst hx
          simp [hv, segHolds, segLookup_segRemove_self]
        · simp [hv, segHolds, segLookup_segRemove_ne id x hx]

theorem setPayloadKey_holds (op_num : SeqNumberType) (id : PointIdType)
    (key : PayloadKeyType) (value : PayloadType) (s : Segment) (x : PointIdType) :
    segHolds (Segment.setPayloadKey op_num id key value s).2 x = segHolds s x := by
  unfold Segment.setPayloadKey
  cases hl : segLookup id s with
  | none => simp
  | some r =>
      by_cases hv : op_num ≤ r.version
      · simp [hv]
      · by_cases hx : x = id
        · subst hx
          simp [hv, segHolds, segLookup_segInsert_self, hl]
        · simp [hv, segHolds, segLookup_segInsert_ne id x _ hx]

theorem setPayloadKey_lookup_ne (op_num : SeqNumberType) (id id' : PointIdType)
    (key : PayloadKeyType) (value : PayloadType) (s : Segment) (h : id' ≠ id) :
    segLookup id' (Segment.setPayloadKey op_num id key value s).2 = segLookup id' s := by
  unfold Segment.setPayloadKey
  cases hl : segLookup id s with
  | none => simp
  | some r =>
      by_cases hv : op_num ≤ r.version
      · simp [hv]
      · simp [hv, segLookup_segInsert_ne id id' _ h]

theorem deletePayloadKey_holds (op_num : SeqNumberType) (id : PointIdType)
    (key : PayloadKeyType) (s : Segment) (x : PointIdType) :
    segHolds (Segment.deletePayloadKey op_num id key s).2 x = segHolds s x := by
  unfold Segment.deletePayloadKey
  cases hl : segLookup id s with
  | none => simp
  | some r =>
      by_cases hv : op_num ≤ r.version
      · simp [hv]
      · by_cases hx : x = id
        · subst hx
          simp [hv, segHolds, segLookup_segInsert_self, hl]
        · simp [hv, segHolds, segLookup_segInsert_ne id x _ hx]

theorem deletePayloadKey_lookup_ne (op_num : SeqNumberType) (id id' : PointIdType)
    (key : PayloadKeyType) (s : Segment) (h : id' ≠ id) :
    segLookup id' (Segment.deletePayloadKey op_num id key s).2 = segLookup id' s := by
  unfold Segment.deletePayloadKey
  cases hl : segLookup id s with
  | none => simp
  | some r =>
      by_cases hv : op_num ≤ r.version
      · simp [hv]
      · simp [hv, segLookup_segInsert_ne id id' _ h]

theorem clearPayloadPoint_holds (op_num : SeqNumberType) (id : PointIdType)
    (s : Segment) (x : PointIdType) :
    segHolds (Segment.clearPayloadPoint op_num id s).2 x = segHolds s x := by
  unfold Segment.clearPayloadPoint
  cases hl : segLookup id s with
  | none => simp
  | some r =>
      by_cases hv : op_num ≤ r.version
      · simp [hv]
      · by_cases hx : x = id
        · subst hx
          simp [hv, segHolds, segLookup_segInsert_self, hl]
        · simp [hv, segHolds, segLookup_segInsert_ne id x _ hx]

theorem clearPayloadPoint_lookup_ne (op_num : SeqNumberType) (id id' : PointIdType)
    (s : Segment) (h : id' ≠ id) :
    segLookup id' (Segment.clearPayloadPoint op_num id s).2 = segLookup id' s := by
  unfold Segment.clearPayloadPoint
  cases hl : segLookup id s with
  | none => simp
  | some r =>
      by_cases hv : op_num ≤ r.version
      · simp [hv]
      · simp [hv, segLookup_segInsert_ne id id' _ h]

/-! ### Staleness lemmas for the concrete operations -/

theorem upsertPoint_stale (op_num : SeqNumberType) (id : PointIdType)
    (v : VectorType) (s : Segment) (hh : segHolds s id = true)
    (hst : staleFor op_num s id) :
    Segment.upsertPoint op_num id v s = (false, s) := by
  unfold Segment.upsertPoint
  cases hl : segLookup id s with
  | none => simp [segHolds, hl] at hh
  | some r => simp [hst r hl]

theorem deletePoint_stale (op_num : SeqNumberType) (id : PointIdType)
    (s : Segment) (hh : segHolds s id = true) (hst : staleFor op_num s id) :
    Segment.deletePoint op_num id s = (false, s) := by
  unfold Segment.deletePoint
  cases hl : segLookup id s with
  | none => simp [segHolds, hl] at hh
  | some r => simp [hst r hl]

theorem setPayloadKey_stale (op_num : SeqNumberType) (id : PointIdType)
    (key : PayloadKeyType) (value : PayloadType) (s : Segment)
    (hst : staleFor op_num s id) :
    Segment.setPayloadKey op_num id key value s = (false, s) := by
  unfold Segment.setPayloadKey
  cases hl : segLookup id s with
  | none => rfl
  | some r => simp [hst r hl]

theorem deletePayloadKey_stale (op_num : SeqNumberType) (id : PointIdType)
    (key : PayloadKeyType) (s : Segment) (hst : staleFor op_num s id) :
    Segment.deletePayloadKey op_num id key s = (false, s) := by
  unfold Segment.deletePayloadKey
  cases hl : segLookup id s with
  | none => rfl
  | some r => simp [hst r hl]

theorem clearPayloadPoint_stale (op_num : SeqNumberType) (id : PointIdType)
    (s : Segment) (hst : staleFor op_num s id) :
    Segment.clearPayloadPoint op_num id s = (false, s) := by
  unfold Segment.clearPayloadPoint
  cases hl : segLookup id s with
  | none => rfl
  | some r => simp [hst r hl]

theorem setPayloadLoopCore_stale (op_num : SeqNumberType) (id : PointIdType)
    (hstep : ∀ key value s, staleFor op_num s id →
      Segment.setPayloadKey op_num id key value s = (false, s)) :
    ∀ (payload : List (PayloadKeyType × PayloadInterface)) (res : Bool)
      (s : Segment), staleFor op_num s id →
      setPayloadLoopCore op_num id payload res s =
        (if payload.isEmpty then res else false, s) := by
  intro payload
  induction payload with
  | nil => intro res s _; rfl
  | cons kp rest ih =>
      intro res s hst
      cases kp with
      | mk key p =>
          have hk := hstep key (toPayload p) s hst
          simp only [setPayloadLoopCore, hk]
          have := ih false s hst
          simp only [Bool.false_and, this]
          cases rest <;> simp

theorem deletePayloadLoopCore_stale (op_num : SeqNumberType) (id : PointIdType) :
    ∀ (keys : List PayloadKeyType) (res : Bool) (s : Segment),
      staleFor op_num s id →
      deletePayloadLoopCore op_num id keys res s =
        (if keys.isEmpty then res else false, s) := by
  intro keys
  induction keys with
  | nil => intro res s _; rfl
  | cons key rest ih =>
      intro res s hst
      have hk := deletePayloadKey_stale op_num id key s hst
      simp only [deletePayloadLoopCore, hk]
      have := ih false s hst
      simp only [Bool.false_and, this]
      cases rest <;> simp

/-- After any concrete operation runs at `op_num`, every id is stale for
`op_num` (the operation either stamped `op_num` on the record it touched, or
left records unchanged). -/
theorem upsertPoint_staleFor (op_num : SeqNumberType) (id : PointIdType)
    (v : VectorType) (s : Segment) (x : PointIdType)
    (hx : x = id ∨ staleFor op_num s x) :
    staleFor op_num (Segment.upsertPoint op_num id v s).2 x := by
  unfold Segment.upsertPoint
  cases hl : segLookup id s with
  | none =>
      intro r hr
      by_cases hxi : x = id
      · subst hxi
        rw [segLookup_segInsert_self] at hr
        cases hr; simp
      · rw [segLookup_segInsert_ne id x _ hxi] at hr
        rcases hx with hx | hx
        · exact absurd hx hxi
        · exact hx r hr
  | some r0 =>
      by_cases hv : op_num ≤ r0.version
      · simp only [hv, if_true]
        intro r hr
        rcases hx with hx | hx
        · subst hx
          rw [hl] at hr; cases hr; exact hv
        · exact hx r hr
      · simp only [hv, if_false]
        intro r hr
        by_cases hxi : x = id
        · subst hxi
          rw [segLookup_segInsert_self] at hr
          cases hr; simp
        · rw [segLookup_segInsert_ne id x _ hxi] at hr
          rcases hx with hx | hx
          · exact absurd hx hxi
          · exact hx r hr

theorem deletePoint_staleFor (op_num : SeqNumberType) (id : PointIdType)
    (s : Segment) (x : PointIdType) (hx : x = id ∨ staleFor op_num s x) :
    staleFor op_num (Segment.deletePoint op_num id s).2 x := by
  unfold Segment.deletePoint
  cases hl : segLookup id s with
  | none =>
      intro r hr
      rcases hx with hx | hx
      · subst hx; rw [hl] at hr; cases hr
      · exact hx r hr
  | some r0 =>
      by_cases hv : op_num ≤ r0.version
      · simp only [hv, if_true]
        intro r hr
        rcases hx with hx | hx
        · subst hx; rw [hl] at hr; cases hr; exact hv
        · exact hx r hr
      · simp only [hv, if_false]
        intro r hr
        by_cases hxi : x = id
        · subst hxi; rw [segLookup_segRemove_self] at hr; cases hr
        · rw [segLookup_segRemove_ne id x hxi] at hr
          rcases hx with hx | hx
          · exact absurd hx hxi
          · exact hx r hr

theorem setPayloadKey_staleFor (op_num : SeqNumberType) (id : PointIdType)
    (key : PayloadKeyType) (value : PayloadType) (s : Segment) (x : PointIdType)
    (hx : staleFor op_num s x) :
    staleFor op_num (Segment.setPayloadKey op_num id key value s).2 x := by
  unfold Segment.setPayloadKey
  cases hl : segLookup id s with
  | none => exact hx
  | some r0 =>
      by_cases hv : op_num ≤ r0.version
      · simp only [hv, if_true]; exact hx
      · simp only [hv, if_false]
        intro r hr
        by_cases hxi : x = id
        · subst hxi
          rw [segLookup_segInsert_self] at hr
          cases hr; simp
        · rw [segLookup_segInsert_ne id x _ hxi] at hr
          exact hx r hr

theorem deletePayloadKey_staleFor (op_num : SeqNumberType) (id : PointIdType)
    (key : PayloadKeyType) (s : Segment) (x : PointIdType)
    (hx : staleFor op_num s x) :
    staleFor op_num (Segment.deletePayloadKey op_num id key s).2 x := by
  unfold Segment.deletePayloadKey
  cases hl : segLookup id s with
  | none => exact hx
  | some r0 =>
      by_cases hv : op_num ≤ r0.version
      · simp only [hv, if_true]; exact hx
      · simp only [hv, if_false]
        intro r hr
        by_cases hxi : x = id
        · subst hxi
          rw [segLookup_segInsert_self] at hr
          cases hr; simp
        · rw [segLookup_segInsert_ne id x _ hxi] at hr
          exact hx r hr

theorem clearPayloadPoint_staleFor (op_num : SeqNumberType) (id : PointIdType)
    (s : Segment) (x : PointIdType) (hx : staleFor op_num s x) :
    staleFor op_num (Segment.clearPayloadPoint op_num id s).2 x := by
  unfold Segment.clearPayloadPoint
  cases hl : segLookup id s with
  | none => exact hx
  | some r0 =>
      by_cases hv : op_num ≤ r0.version
      · simp only [hv, if_true]; exact hx
      · simp only [hv, if_false]
        intro r hr
        by_cases hxi : x = id
        · subst hxi
          rw [segLookup_segInsert_self] at hr
          cases hr; simp
        · rw [segLookup_segInsert_ne id x _ hxi] at hr
          exact hx r hr

theorem setPayloadKey_staleFor_self (op_num : SeqNumberType) (id : PointIdType)
    (key : PayloadKeyType) (value : PayloadType) (s : Segment) :
    staleFor op_num (Segment.setPayloadKey op_num id key value s).2 id := by
  unfold Segment.setPayloadKey
  cases hl : segLookup id s with
  | none => intro r hr; rw [hl] at hr; cases hr
  | some r0 =>
      by_cases hv : op_num ≤ r0.version
      · simp only [hv, if_true]
        intro r hr; rw [hl] at hr; cases hr; exact hv
      · simp only [hv, if_false]
        intro r hr
        rw [segLookup_segInsert_self] at hr
        cases hr; simp

theorem deletePayloadKey_staleFor_self (op_num : SeqNumberType) (id : PointIdType)
    (key : PayloadKeyType) (s : Segment) :
    staleFor op_num (Segment.deletePayloadKey op_num id key s).2 id := by
  unfold Segment.deletePayloadKey
  cases hl : segLookup id s with
  | none => intro r hr; rw [hl] at hr; cases hr
  | some r0 =>
      by_cases hv : op_num ≤ r0.version
      · simp only [hv, if_true]
        intro r hr; rw [hl] at hr; cases hr; exact hv
      · simp only [hv, if_false]
        intro r hr
        rw [segLookup_segInsert_self] at hr
        cases hr; simp

theorem clearPayloadPoint_staleFor_self (op_num : SeqNumberType) (id : PointIdType)
    (s : Segment) :
    staleFor op_num (Segment.clearPayloadPoint op_num id s).2 id := by
  unfold Segment.clearPayloadPoint
  cases hl : segLookup id s with
  | none => intro r hr; rw [hl] at hr; cases hr
  | some r0 =>
      by_cases hv : op_num ≤ r0.version
      · simp only [hv, if_true]
        intro r hr; rw [hl] at hr; cases hr; exact hv
      · simp only [hv, if_false]
        intro r hr
        rw [segLookup_segInsert_self] at hr
        cases hr; simp

/-! ### Derived lemmas for the per-point payload loops -/

theorem setPayloadLoopCore_holds (op_num : SeqNumberType) (id : PointIdType) :
    ∀ (payload : List (PayloadKeyType × PayloadInterface)) (res : Bool)
      (s : Segment) (x : PointIdType),
      segHolds (setPayloadLoopCore op_num id payload res s).2 x = segHolds s x := by
  intro payload
  induction payload with
  | nil => intro res s x; rfl
  | cons kp rest ih =>
      intro res s x
      cases kp with
      | mk key p =>
          simp only [setPayloadLoopCore, ih, setPayloadKey_holds]

theorem setPayloadLoopCore_lookup_ne (op_num : SeqNumberType) (id id' : PointIdType)
    (h : id' ≠ id) :
    ∀ (payload : List (PayloadKeyType × PayloadInterface)) (res : Bool)
      (s : Segment),
      segLookup id' (setPayloadLoopCore op_num id payload res s).2 = segLookup id' s := by
  intro payload
  induction payload with
  | nil => intro res s; rfl
  | cons kp rest ih =>
      intro res s
      cases kp with
      | mk key p =>
          simp only [setPayloadLoopCore, ih, setPayloadKey_lookup_ne op_num id id' _ _ _ h]

theorem setPayloadLoopCore_staleFor (op_num : SeqNumberType) (id : PointIdType) :
    ∀ (payload : List (PayloadKeyType × PayloadInterface)) (res : Bool)
      (s : Segment) (x : PointIdType), staleFor op_num s x →
      staleFor op_num (setPayloadLoopCore op_num id payload res s).2 x := by
  intro payload
  induction payload with
  | nil => intro res s x hx; exact hx
  | cons kp rest ih =>
      intro res s x hx
      cases kp with
      | mk key p =>
          exact ih _ _ x (setPayloadKey_staleFor op_num id key _ s x hx)

theorem setPayloadLoopCore_staleFor_self (op_num : SeqNumberType) (id : PointIdType) :
    ∀ (payload : List (PayloadKeyType × PayloadInterface)) (res : Bool)
      (s : Segment), payload ≠ [] →
      staleFor op_num (setPayloadLoopCore op_num id payload res s).2 id := by
  intro payload
  cases payload with
  | nil => intro res s h; exact absurd rfl h
  | cons kp rest =>
      intro res s _
      cases kp with
      | mk key p =>
          exact setPayloadLoopCore_staleFor op_num id rest _ _ id
            (setPayloadKey_staleFor_self op_num id key _ s)

theorem deletePayloadLoopCore_holds (op_num : SeqNumberType) (id : PointIdType) :
    ∀ (keys : List PayloadKeyType) (res : Bool) (s : Segment) (x : PointIdType),
      segHolds (deletePayloadLoopCore op_num id keys res s).2 x = segHolds s x := by
  intro keys
  induction keys with
  | nil => intro res s x; rfl
  | cons key rest ih =>
      intro res s x
      simp only [deletePayloadLoopCore, ih, deletePayloadKey_holds]

theorem deletePayloadLoopCore_lookup_ne (op_num : SeqNumberType) (id id' : PointIdType)
    (h : id' ≠ id) :
    ∀ (keys : List PayloadKeyType) (res : Bool) (s : Segment),
      segLookup id' (deletePayloadLoopCore op_num id keys res s).2 = segLookup id' s := by
  intro keys
  induction keys with
  | nil => intro res s; rfl
  | cons key rest ih =>
      intro res s
      simp only [deletePayloadLoopCore, ih, deletePayloadKey_lookup_ne op_num id id' _ _ h]

theorem deletePayloadLoopCore_staleFor (op_num : SeqNumberType) (id : PointIdType) :
    ∀ (keys : List PayloadKeyType) (res : Bool) (s : Segment) (x : PointIdType),
      staleFor op_num s x →
      staleFor op_num (deletePayloadLoopCore op_num id keys res s).2 x := by
  intro keys
  induction keys with
  | nil => intro res s x hx; exact hx
  | cons key rest ih =>
      intro res s x hx
      exact ih _ _ x (deletePayloadKey_staleFor op_num id key s x hx)

theorem deletePayloadLoopCore_staleFor_self (op_num : SeqNumberType) (id : PointIdType) :
    ∀ (keys : List PayloadKeyType) (res : Bool) (s : Segment), keys ≠ [] →
      staleFor op_num (deletePayloadLoopCore op_num id keys res s).2 id := by
  intro keys
  cases keys with
  | nil => intro res s h; exact absurd rfl h
  | cons key rest =>
      intro res s _
      exact deletePayloadLoopCore_staleFor op_num id rest _ _ id
        (deletePayloadKey_staleFor_self op_num id key s)

/-! ### Generic lemmas about per-segment folds -/

theorem segFoldState_holds (Fs : PointIdType → Segment → Segment)
    (hyp : ∀ id s, segHolds s id = true → ∀ x, segHolds (Fs id s) x = segHolds s x) :
    ∀ (H : List PointIdType) (s : Segment),
      (∀ id ∈ H, segHolds s id = true) →
      ∀ x, segHolds (segFoldState Fs H s) x = segHolds s x := by
  intro H
  induction H with
  | nil => intro s _ x; rfl
  | cons id rest ih =>
      intro s hH x
      have hid : segHolds s id = true := hH id (List.mem_cons_self id rest)
      have hstep := hyp id s hid
      have hrest : ∀ id' ∈ rest, segHolds (Fs id s) id' = true := by
        intro id' hm
        rw [hstep id']
        exact hH id' (List.mem_cons_of_mem _ hm)
      simp only [segFoldState]
      rw [ih (Fs id s) hrest x, hstep x]

theorem segFoldState_holds_unc (Fs : PointIdType → Segment → Segment)
    (hyp : ∀ id s x, segHolds (Fs id s) x = segHolds s x) :
    ∀ (H : List PointIdType) (s : Segment) (x : PointIdType),
      segHolds (segFoldState Fs H s) x = segHolds s x := by
  intro H
  induction H with
  | nil => intro s x; rfl
  | cons id rest ih =>
      intro s x
      simp only [segFoldState]
      rw [ih (Fs id s) x, hyp id s x]

theorem segFoldState_holds_imp (Fs : PointIdType → Segment → Segment)
    (hyp : ∀ id s x, segHolds (Fs id s) x = true → segHolds s x = true) :
    ∀ (H : List PointIdType) (s : Segment) (x : PointIdType),
      segHolds (segFoldState Fs H s) x = true → segHolds s x = true := by
  intro H
  induction H with
  | nil => intro s x h; exact h
  | cons id rest ih =>
      intro s x h
      exact hyp id s x (ih (Fs id s) x h)

theorem segFoldState_lookup_ne (Fs : PointIdType → Segment → Segment)
    (hyp : ∀ id id' s, id' ≠ id → segLookup id' (Fs id s) = segLookup id' s) :
    ∀ (H : List PointIdType) (s : Segment) (id' : PointIdType), id' ∉ H →
      segLookup id' (segFoldState Fs H s) = segLookup id' s := by
  intro H
  induction H with
  | nil => intro s id' _; rfl
  | cons id rest ih =>
      intro s id' hnm
      have h1 : id' ≠ id := fun hc => hnm (hc ▸ List.mem_cons_self id rest)
      have h2 : id' ∉ rest := fun hc => hnm (List.mem_cons_of_mem _ hc)
      simp only [segFoldState]
      rw [ih (Fs id s) id' h2, hyp id id' s h1]

theorem segFoldState_result (Fs : PointIdType → Segment → Segment)
    (R : PointIdType → Option Record → Option Record)
    (hypNe : ∀ id id' s, id' ≠ id → segLookup id' (Fs id s) = segLookup id' s)
    (hypR : ∀ id s, segLookup id (Fs id s) = R id (segLookup id s)) :
    ∀ (H : List PointIdType), H.Nodup → ∀ (s : Segment) (id : PointIdType),
      id ∈ H → segLookup id (segFoldState Fs H s) = R id (segLookup id s) := by
  intro H
  induction H with
  | nil => intro _ s id h; cases h
  | cons hd rest ih =>
      intro hnd s id hm
      have hnd' := List.nodup_cons.mp hnd
      rcases List.mem_cons.mp hm with hm | hm
      · subst hm
        simp only [segFoldState]
        rw [segFoldState_lookup_ne Fs hypNe rest (Fs id s) id hnd'.1, hypR id s]
      · have hne : id ≠ hd := fun hc => hnd'.1 (hc ▸ hm)
        simp only [segFoldState]
        rw [ih hnd'.2 (Fs hd s) id hm, hypNe hd id s hne]

theorem segFoldCount_all (Fb : PointIdType → Segment → Bool)
    (Fs : PointIdType → Segment → Segment) (Q : PointIdType → Segment → Prop)
    (hQb : ∀ id s, Q id s → Fb id s = true)
    (hQpres : ∀ id id' s, id' ≠ id → Q id' s → Q id' (Fs id s)) :
    ∀ (H : List PointIdType), H.Nodup → ∀ (s : Segment),
      (∀ id ∈ H, Q id s) → segFoldCount Fb Fs H s = H.length := by
  intro H
  induction H with
  | nil => intro _ s _; rfl
  | cons hd rest ih =>
      intro hnd s hQ
      have hnd' := List.nodup_cons.mp hnd
      have hb := hQb hd s (hQ hd (List.mem_cons_self hd rest))
      have hQ' : ∀ id ∈ rest, Q id (Fs hd s) := by
        intro id hm
        have hne : id ≠ hd := fun hc => hnd'.1 (hc ▸ hm)
        exact hQpres hd id s hne (hQ id (List.mem_cons_of_mem _ hm))
      simp only [segFoldCount, hb, if_true, ih hnd'.2 (Fs hd s) hQ', List.length_cons]
      omega

theorem segFoldState_stale_id (op_num : SeqNumberType)
    (Fb : PointIdType → Segment → Bool) (Fs : PointIdType → Segment → Segment)
    (hyp : ∀ id s, segHolds s id = true → staleFor op_num s id →
      Fs id s = s ∧ Fb id s = false) :
    ∀ (H : List PointIdType) (s : Segment),
      (∀ id ∈ H, segHolds s id = true ∧ staleFor op_num s id) →
      segFoldState Fs H s = s ∧ segFoldCount Fb Fs H s = 0 := by
  intro H
  induction H with
  | nil => intro s _; exact ⟨rfl, rfl⟩
  | cons hd rest ih =>
      intro s hH
      have h1 := hH hd (List.mem_cons_self hd rest)
      have hstep := hyp hd s h1.1 h1.2
      have hrest : ∀ id ∈ rest, segHolds s id = true ∧ staleFor op_num s id :=
        fun id hm => hH id (List.mem_cons_of_mem _ hm)
      have := ih s hrest
      constructor
      · simp only [segFoldState, hstep.1, this.1]
      · simp [segFoldCount, hstep.2, hstep.1, this.2]

theorem segFoldState_staleFor_pres (op_num : SeqNumberType)
    (Fs : PointIdType → Segment → Segment)
    (hyp : ∀ id s x, staleFor op_num s x → staleFor op_num (Fs id s) x) :
    ∀ (H : List PointIdType) (s : Segment) (x : PointIdType),
      staleFor op_num s x → staleFor op_num (segFoldState Fs H s) x := by
  intro H
  induction H with
  | nil => intro s x h; exact h
  | cons hd rest ih =>
      intro s x h
      exact ih (Fs hd s) x (hyp hd s x h)

theorem segFoldState_staleFor_mem (op_num : SeqNumberType)
    (Fs : PointIdType → Segment → Segment)
    (hypSelf : ∀ id s, staleFor op_num (Fs id s) id)
    (hypPres : ∀ id s x, staleFor op_num s x → staleFor op_num (Fs id s) x) :
    ∀ (H : List PointIdType) (s : Segment) (x : PointIdType), x ∈ H →
      staleFor op_num (segFoldState Fs H s) x := by
  intro H
  induction H with
  | nil => intro s x h; cases h
  | cons hd rest ih =>
      intro s x hm
      rcases List.mem_cons.mp hm with hm | hm
      · subst hm
        exact segFoldState_staleFor_pres op_num Fs hypPres rest (Fs x s) x
          (hypSelf x s)
      · exact ih (Fs hd s) x hm

/-! ### The `updated_points` accumulator -/

theorem insertSet_mem (id : PointIdType) (s : List PointIdType) (x : PointIdType) :
    x ∈ insertSet id s ↔ x ∈ s ∨ x = id := by
  unfold insertSet
  by_cases h : s.contains id = true
  · rw [if_pos h]
    constructor
    · intro hx; exact Or.inl hx
    · rintro (hx | hx)
      · exact hx
      · subst hx; exact List.elem_iff.mp h
  · rw [if_neg h]
    simp only [List.mem_cons]
    tauto

theorem foldlInsertSet_mem :
    ∀ (H : List PointIdType) (acc : List PointIdType) (x : PointIdType),
      x ∈ H.foldl (fun a id => insertSet id a) acc ↔ x ∈ acc ∨ x ∈ H := by
  intro H
  induction H with
  | nil => intro acc x; simp
  | cons id rest ih =>
      intro acc x
      simp only [List.foldl, ih, insertSet_mem, List.mem_cons]
      tauto

theorem mem_heldIds {σ : Type} (E : SegmentEntry σ) (ids : List PointIdType)
    (s : σ) (x : PointIdType) :
    x ∈ heldIds E ids s ↔ x ∈ ids ∧ E.has_point s x = true := by
  unfold heldIds
  simp [List.mem_filter]

theorem fanAccInsert_mem {σ : Type} (E : SegmentEntry σ) (ids : List PointIdType) :
    ∀ (segs : List σ) (acc : List PointIdType) (x : PointIdType),
      x ∈ segs.foldl
          (fun a s => (heldIds E ids s).foldl (fun a id => insertSet id a) a) acc ↔
        x ∈ acc ∨ ∃ s ∈ segs, x ∈ heldIds E ids s := by
  intro segs
  induction segs with
  | nil => intro acc x; simp
  | cons s rest ih =>
      intro acc x
      simp only [List.foldl, ih, foldlInsertSet_mem, List.mem_cons]
      constructor
      · rintro (( h | h) | ⟨s', hs', h⟩)
        · exact Or.inl h
        · exact Or.inr ⟨s, Or.inl rfl, h⟩
        · exact Or.inr ⟨s', Or.inr hs', h⟩
      · rintro (h | ⟨s', hs' | hs', h⟩)
        · exact Or.inl (Or.inl h)
        · subst hs'; exact Or.inl (Or.inr h)
        · exact Or.inr ⟨s', hs', h⟩

/-! ### `modifyAt` and counting lemmas -/

theorem modifyAt_length {σ : Type} (f : σ → σ) :
    ∀ (l : List σ) (i : Nat), (modifyAt f l i).length = l.length := by
  intro l
  induction l with
  | nil => intro i; rfl
  | cons s rest ih =>
      intro i
      cases i with
      | zero => rfl
      | succ j => simp [modifyAt, ih]

theorem modifyAt_id {σ : Type} (f : σ → σ) (hf : ∀ s, f s = s) :
    ∀ (l : List σ) (i : Nat), modifyAt f l i = l := by
  intro l
  induction l with
  | nil => intro i; rfl
  | cons s rest ih =>
      intro i
      cases i with
      | zero => simp [modifyAt, hf]
      | succ j => simp [modifyAt, ih]

theorem modifyAt_getD {σ : Type} (f : σ → σ) (d : σ) :
    ∀ (l : List σ) (i : Nat), i < l.length →
      (modifyAt f l i).getD i d = f (l.getD i d) := by
  intro l
  induction l with
  | nil => intro i h; cases h
  | cons s rest ih =>
      intro i h
      cases i with
      | zero => rfl
      | succ j =>
          simp only [modifyAt, List.getD_cons_succ]
          exact ih j (Nat.lt_of_succ_lt_succ h)

theorem modifyAt_getD_ne {σ : Type} (f : σ → σ) (d : σ) :
    ∀ (l : List σ) (i j : Nat), i ≠ j → (modifyAt f l i).getD j d = l.getD j d := by
  intro l
  induction l with
  | nil => intro i j _; cases i <;> rfl
  | cons s rest ih =>
      intro i j hne
      cases i with
      | zero =>
          cases j with
          | zero => exact absurd rfl hne
          | succ k => rfl
      | succ i' =>
          cases j with
          | zero => rfl
          | succ k =>
              simp only [modifyAt, List.getD_cons_succ]
              exact ih i' k (fun hc => hne (by rw [hc]))

theorem countP_modifyAt_le {σ : Type} (f : σ → σ) (p : σ → Bool) :
    ∀ (l : List σ) (i : Nat),
      (modifyAt f l i).countP p ≤ l.countP p + 1 := by
  intro l
  induction l with
  | nil => intro i; simp [modifyAt]
  | cons s rest ih =>
      intro i
      cases i with
      | zero =>
          simp only [modifyAt, List.countP_cons]
          have : (if p (f s) then 1 else 0) ≤ (if p s then 1 else 0) + 1 := by
            split <;> split <;> omega
          omega
      | succ j =>
          simp only [modifyAt, List.countP_cons]
          have := ih j
          omega

theorem countP_modifyAt_eq {σ : Type} (f : σ → σ) (p : σ → Bool)
    (hf : ∀ s, p (f s) = p s) :
    ∀ (l : List σ) (i : Nat), (modifyAt f l i).countP p = l.countP p := by
  intro l
  induction l with
  | nil => intro i; rfl
  | cons s rest ih =>
      intro i
      cases i with
      | zero => simp [modifyAt, List.countP_cons, hf]
      | succ j => simp [modifyAt, List.countP_cons, ih]

theorem getD_mem {σ : Type} (d : σ) :
    ∀ (l : List σ) (i : Nat), i < l.length → l.getD i d ∈ l := by
  intro l
  induction l with
  | nil => intro i h; cases h
  | cons s rest ih =>
      intro i h
      cases i with
      | zero => exact List.mem_cons_self s rest
      | succ j =>
          simp only [List.getD_cons_succ]
          exact List.mem_cons_of_mem _ (ih j (Nat.lt_of_succ_lt_succ h))

/-! ### Residual insertion -/

theorem residualUpserts_eq_core (op_num : SeqNumberType)
    (pm : PointIdType → VectorType) :
    ∀ (new : List PointIdType) (s : Segment),
      residualUpserts specSegmentEntry op_num pm new s =
        segFoldState (fun id s => (Segment.upsertPoint op_num id (pm id) s).2) new s := by
  intro new
  induction new with
  | nil => intro s; rfl
  | cons id rest ih => intro s; simp [residualUpserts, segFoldState, ih]; rfl

theorem residualCore_holds (op_num : SeqNumberType) (pm : PointIdType → VectorType) :
    ∀ (new : List PointIdType) (s : Segment) (x : PointIdType),
      segHolds (segFoldState (fun id s => (Segment.upsertPoint op_num id (pm id) s).2) new s) x
        = (segHolds s x || decide (x ∈ new)) := by
  intro new
  induction new with
  | nil => intro s x; simp [segFoldState]
  | cons id rest ih =>
      intro s x
      simp only [segFoldState, ih, upsertPoint_holds]
      by_cases hx : x = id
      · subst hx; simp
      · simp [hx, List.mem_cons]

theorem residualCore_staleFor_pres (op_num : SeqNumberType)
    (pm : PointIdType → VectorType) :
    ∀ (new : List PointIdType) (s : Segment) (x : PointIdType),
      staleFor op_num s x →
      staleFor op_num
        (segFoldState (fun id s => (Segment.upsertPoint op_num id (pm id) s).2) new s) x := by
  intro new
  apply segFoldState_staleFor_pres
  intro id s x h
  exact upsertPoint_staleFor op_num id (pm id) s x (Or.inr h)

theorem residualCore_staleFor_mem (op_num : SeqNumberType)
    (pm : PointIdType → VectorType) :
    ∀ (new : List PointIdType) (s : Segment) (x : PointIdType), x ∈ new →
      staleFor op_num
        (segFoldState (fun id s => (Segment.upsertPoint op_num id (pm id) s).2) new s) x := by
  intro new
  apply segFoldState_staleFor_mem
  · intro id s
    exact upsertPoint_staleFor op_num id (pm id) s id (Or.inl rfl)
  · intro id s x h
    exact upsertPoint_staleFor op_num id (pm id) s x (Or.inr h)

theorem residualCore_lookup_notmem (op_num : SeqNumberType)
    (pm : PointIdType → VectorType) :
    ∀ (new : List PointIdType) (s : Segment) (x : PointIdType), x ∉ new →
      segLookup x
        (segFoldState (fun id s => (Segment.upsertPoint op_num id (pm id) s).2) new s)
        = segLookup x s := by
  intro new s x hx
  exact segFoldState_lookup_ne _
    (fun id id' s h => upsertPoint_lookup_ne op_num id id' (pm id) s h) new s x hx

theorem residualCore_lookup_new (op_num : SeqNumberType)
    (pm : PointIdType → VectorType) :
    ∀ (new : List PointIdType), new.Nodup → ∀ (s : Segment) (x : PointIdType),
      x ∈ new → segHolds s x = false →
      segLookup x
        (segFoldState (fun id s => (Segment.upsertPoint op_num id (pm id) s).2) new s)
        = some ⟨op_num, pm x, []⟩ := by
  intro new
  induction new with
  | nil => intro _ s x h; cases h
  | cons id rest ih =>
      intro hnd s x hm hh
      have hnd' := List.nodup_cons.mp hnd
      rcases List.mem_cons.mp hm with hm | hm
      · subst hm
        simp only [segFoldState]
        rw [residualCore_lookup_notmem op_num pm rest _ x hnd'.1]
        unfold Segment.upsertPoint
        cases hl : segLookup x s with
        | none => rw [segLookup_segInsert_self]
        | some r => simp [segHolds, hl] at hh
      · have hne : x ≠ id := fun hc => hnd'.1 (hc ▸ hm)
        simp only [segFoldState]
        apply ih hnd'.2 _ x hm
        rw [upsertPoint_holds, hh]
        simp [hne]

/-! ### Counting the found points across segments -/

theorem specE_has_point (s : Segment) (id : PointIdType) :
    specSegmentEntry.has_point s id = segHolds s id := rfl

theorem sum_map_add {α : Type} (f g : α → Nat) :
    ∀ l : List α, (l.map (fun x => f x + g x)).sum = (l.map f).sum + (l.map g).sum := by
  intro l
  induction l with
  | nil => rfl
  | cons x rest ih =>
      simp only [List.map, List.sum_cons, ih]
      omega

theorem sum_indicator_countP {α : Type} (p : α → Bool) :
    ∀ l : List α, (l.map (fun x => if p x then 1 else 0)).sum = l.countP p := by
  intro l
  induction l with
  | nil => rfl
  | cons x rest ih =>
      simp only [List.map, List.sum_cons, ih, List.countP_cons]
      by_cases h : p x = true <;> simp [h] <;> omega

theorem heldIds_cons_length {σ : Type} (E : SegmentEntry σ) (id : PointIdType)
    (ids : List PointIdType) (s : σ) :
    (heldIds E (id :: ids) s).length =
      (if E.has_point s id then 1 else 0) + (heldIds E ids s).length := by
  unfold heldIds
  rw [List.filter_cons]
  by_cases h : E.has_point s id = true <;> simp [h] <;> omega

theorem sum_heldIds_length {σ : Type} (E : SegmentEntry σ) :
    ∀ (ids : List PointIdType) (segs : List σ),
      (segs.map (fun s => (heldIds E ids s).length)).sum =
        (ids.map (fun id => segs.countP (fun s => E.has_point s id))).sum := by
  intro ids
  induction ids with
  | nil =>
      intro segs
      simp [heldIds]
  | cons id rest ih =>
      intro segs
      have h1 : segs.map (fun s => (heldIds E (id :: rest) s).length) =
          segs.map (fun s =>
            (if E.has_point s id then 1 else 0) + (heldIds E rest s).length) :=
        List.map_congr_left (fun s _ => heldIds_cons_length E id rest s)
      rw [h1, sum_map_add, sum_indicator_countP, ih]
      simp

theorem countP_holds_of_unique (segs : List Segment) (id : PointIdType)
    (hU : UniqueHold segs) :
    segs.countP (fun s => segHolds s id) = if heldByAny segs id then 1 else 0 := by
  by_cases h : heldByAny segs id = true
  · rw [if_pos h]
    have hpos : 0 < segs.countP (fun s => segHolds s id) := by
      rw [List.countP_pos_iff]
      unfold heldByAny at h
      exact List.any_eq_true.mp h
    have hle := hU id
    omega
  · rw [if_neg h]
    rw [List.countP_eq_zero]
    intro s hs hc
    exact h (List.any_eq_true.mpr ⟨s, hs, hc⟩)

theorem sum_indicator_filter {α : Type} (p : α → Bool) (l : List α) :
    (l.map (fun x => if p x then 1 else 0)).sum = (l.filter p).length := by
  rw [sum_indicator_countP, List.countP_eq_length_filter]

/-- Under the uniqueness invariant with nodup fresh ids, the total fan-out
count of an operation that reports a genuine change on every fresh held
record equals the number of requested ids held by some segment. -/
theorem fanCount_eq_found (op_num : SeqNumberType)
    (Fb : PointIdType → Segment → Bool) (Fs : PointIdType → Segment → Segment)
    (ids : List PointIdType) (segs : List Segment)
    (hnodup : ids.Nodup) (hU : UniqueHold segs) (hFresh : FreshFor op_num segs)
    (hQb : ∀ id s, (∃ r, segLookup id s = some r ∧ r.version < op_num) →
      Fb id s = true)
    (hNe : ∀ id id' s, id' ≠ id → segLookup id' (Fs id s) = segLookup id' s) :
    (segs.map (fun s => segFoldCount Fb Fs (heldIds specSegmentEntry ids s) s)).sum
      = (ids.filter (fun id => heldByAny segs id)).length := by
  have hcong : segs.map
      (fun s => segFoldCount Fb Fs (heldIds specSegmentEntry ids s) s) =
      segs.map (fun s => (heldIds specSegmentEntry ids s).length) := by
    apply List.map_congr_left
    intro s hs
    apply segFoldCount_all Fb Fs
      (fun id s' => ∃ r, segLookup id s' = some r ∧ r.version < op_num) hQb
    · intro id id' s' hne hQ
      rcases hQ with ⟨r, hr, hv⟩
      refine ⟨r, ?_, hv⟩
      rw [hNe id id' s' hne]
      exact hr
    · exact hnodup.filter _
    · intro id hm
      rcases (mem_heldIds specSegmentEntry ids s id).mp hm with ⟨_, hh⟩
      rw [specE_has_point] at hh
      unfold segHolds at hh
      cases hl : segLookup id s with
      | none => rw [hl] at hh; cases hh
      | some r =>
          exact ⟨r, rfl, hFresh s hs (id, r) (segLookup_mem id r s hl)⟩
  rw [hcong, sum_heldIds_length]
  have h2 : ids.map
      (fun id => segs.countP (fun s => specSegmentEntry.has_point s id)) =
      ids.map (fun id => if heldByAny segs id then 1 else 0) := by
    apply List.map_congr_left
    intro id _
    rw [show (fun s => specSegmentEntry.has_point s id) = fun s => segHolds s id
      from rfl]
    exact countP_holds_of_unique segs id hU
  rw [h2, sum_indicator_filter]

/-! ### The concrete operations in closed fold form -/

/-- Change reported by the segment upsert for one id. -/
def upsertFb (op_num : SeqNumberType) (pm : PointIdType → VectorType)
    (id : PointIdType) (s : Segment) : Bool :=
  (Segment.upsertPoint op_num id (pm id) s).1

/-- State effect of the segment upsert for one id. -/
def upsertFs (op_num : SeqNumberType) (pm : PointIdType → VectorType)
    (id : PointIdType) (s : Segment) : Segment :=
  (Segment.upsertPoint op_num id (pm id) s).2

/-- Change reported by the segment delete for one id. -/
def deleteFb (op_num : SeqNumberType) (id : PointIdType) (s : Segment) : Bool :=
  (Segment.deletePoint op_num id s).1

/-- State effect of the segment delete for one id. -/
def deleteFs (op_num : SeqNumberType) (id : PointIdType) (s : Segment) : Segment :=
  (Segment.deletePoint op_num id s).2

/-- Change reported by the per-point set-payload loop. -/
def setPFb (op_num : SeqNumberType)
    (payload : List (PayloadKeyType × PayloadInterface)) (id : PointIdType)
    (s : Segment) : Bool :=
  (setPayloadLoopCore op_num id payload true s).1

/-- State effect of the per-point set-payload loop. -/
def setPFs (op_num : SeqNumberType)
    (payload : List (PayloadKeyType × PayloadInterface)) (id : PointIdType)
    (s : Segment) : Segment :=
  (setPayloadLoopCore op_num id payload true s).2

/-- Change reported by the per-point delete-payload loop. -/
def delPFb (op_num : SeqNumberType) (keys : List PayloadKeyType)
    (id : PointIdType) (s : Segment) : Bool :=
  (deletePayloadLoopCore op_num id keys true s).1

/-- State effect of the per-point delete-payload loop. -/
def delPFs (op_num : SeqNumberType) (keys : List PayloadKeyType)
    (id : PointIdType) (s : Segment) : Segment :=
  (deletePayloadLoopCore op_num id keys true s).2

/-- Change reported by the per-point clear-payload call. -/
def clearFb (op_num : SeqNumberType) (id : PointIdType) (s : Segment) : Bool :=
  (Segment.clearPayloadPoint op_num id s).1

/-- State effect of the per-point clear-payload call. -/
def clearFs (op_num : SeqNumberType) (id : PointIdType) (s : Segment) : Segment :=
  (Segment.clearPayloadPoint op_num id s).2

/-- Segment states after a fan-out with per-id effect `Fs`. -/
def fanned (Fs : PointIdType → Segment → Segment) (ids : List PointIdType)
    (segs : List Segment) : List Segment :=
  segs.map (fun s => segFoldState Fs (heldIds specSegmentEntry ids s) s)

/-- Total genuine-change count of a fan-out. -/
def fanCountTotal (Fb : PointIdType → Segment → Bool)
    (Fs : PointIdType → Segment → Segment) (ids : List PointIdType)
    (segs : List Segment) : Nat :=
  (segs.map (fun s => segFoldCount Fb Fs (heldIds specSegmentEntry ids s) s)).sum

/-- Contents of `updated_points` after a fan-out: the requested ids found in
some segment. -/
def fanFound (ids : List PointIdType) (segs : List Segment) : List PointIdType :=
  segs.foldl
    (fun a s => (heldIds specSegmentEntry ids s).foldl (fun a id => insertSet id a) a) []

/-- The residual set of an upsert: requested ids found in no segment. -/
def newPoints (ids : List PointIdType) (segs : List Segment) : List PointIdType :=
  ids.filter (fun x => !(fanFound ids segs).contains x)

theorem fanFound_mem (ids : List PointIdType) (segs : List Segment)
    (x : PointIdType) :
    x ∈ fanFound ids segs ↔ x ∈ ids ∧ heldByAny segs x = true := by
  unfold fanFound
  rw [fanAccInsert_mem]
  simp only [List.not_mem_nil, false_or]
  constructor
  · rintro ⟨s, hs, hm⟩
    rcases (mem_heldIds specSegmentEntry ids s x).mp hm with ⟨h1, h2⟩
    exact ⟨h1, List.any_eq_true.mpr ⟨s, hs, h2⟩⟩
  · rintro ⟨h1, h2⟩
    rcases List.any_eq_true.mp h2 with ⟨s, hs, hh⟩
    exact ⟨s, hs, (mem_heldIds specSegmentEntry ids s x).mpr ⟨h1, hh⟩⟩

theorem find?_congr {α : Type} (p q : α → Bool) :
    ∀ l : List α, (∀ x ∈ l, p x = q x) → l.find? p = l.find? q := by
  intro l
  induction l with
  | nil => intro _; rfl
  | cons x rest ih =>
      intro h
      have hx := h x (List.mem_cons_self x rest)
      rw [List.find?_cons, List.find?_cons, hx]
      cases q x with
      | true => rfl
      | false => exact ih (fun y hy => h y (List.mem_cons_of_mem _ hy))

theorem newPoints_mem (ids : List PointIdType) (segs : List Segment)
    (x : PointIdType) :
    x ∈ newPoints ids segs ↔ x ∈ ids ∧ heldByAny segs x = false := by
  unfold newPoints
  rw [List.mem_filter]
  constructor
  · rintro ⟨h1, h2⟩
    refine ⟨h1, ?_⟩
    cases hb : heldByAny segs x with
    | false => rfl
    | true =>
        have : x ∈ fanFound ids segs := (fanFound_mem ids segs x).mpr ⟨h1, hb⟩
        rw [Bool.not_eq_true', ← Bool.not_eq_true] at h2
        exact absurd (List.elem_iff.mpr this) h2
  · rintro ⟨h1, h2⟩
    refine ⟨h1, ?_⟩
    rw [Bool.not_eq_true', ← Bool.not_eq_true]
    intro hc
    have := (fanFound_mem ids segs x).mp (List.elem_iff.mp hc)
    rw [h2] at this
    cases this.2

theorem random_segment_map {σ τ : Type} (choice : Nat) (f : σ → τ)
    (segs : List σ) (h : segs ≠ []) :
    random_segment choice (segs.map f) = some (choice % segs.length) := by
  cases segs with
  | nil => exact absurd rfl h
  | cons s rest => simp [random_segment]

theorem delete_points_concrete (op_num : SeqNumberType) (ids : List PointIdType)
    (segs : List Segment) :
    delete_points specSegmentEntry op_num ids segs =
      (Except.ok (fanCountTotal (deleteFb op_num) (deleteFs op_num) ids segs),
       fanned (deleteFs op_num) ids segs) := by
  unfold delete_points
  rw [apply_points_eq specSegmentEntry op_num ids (deleteClosure specSegmentEntry op_num)
      (deleteFb op_num) (deleteFs op_num) (fun _ a => a) (deleteClosure_spec op_num) segs ()]
  rfl

theorem upsert_points_concrete (choice : Nat) (op_num : SeqNumberType)
    (ids : List PointIdType) (vectors : List VectorType) (segs : List Segment)
    (h : segs ≠ []) :
    upsert_points specSegmentEntry choice op_num ids vectors segs =
      (Except.ok (fanCountTotal (upsertFb op_num (pointsMap ids vectors))
          (upsertFs op_num (pointsMap ids vectors)) ids segs),
       modifyAt
         (residualUpserts specSegmentEntry op_num (pointsMap ids vectors)
           (newPoints ids segs))
         (fanned (upsertFs op_num (pointsMap ids vectors)) ids segs)
         (choice % segs.length)) := by
  simp only [upsert_points]
  rw [apply_points_eq specSegmentEntry op_num ids
      (upsertClosure specSegmentEntry op_num (pointsMap ids vectors))
      (upsertFb op_num (pointsMap ids vectors))
      (upsertFs op_num (pointsMap ids vectors)) insertSet
      (upsertClosure_spec op_num (pointsMap ids vectors)) segs []]
  cases segs with
  | nil => exact absurd rfl h
  | cons s0 rest =>
      simp only [fanCountTotal, fanned, newPoints, fanFound, random_segment,
        List.map_cons, List.isEmpty_cons, List.length_map, List.length_cons]
      rfl

theorem upsert_points_nil (choice : Nat) (op_num : SeqNumberType)
    (ids : List PointIdType) (vectors : List VectorType) :
    upsert_points specSegmentEntry choice op_num ids vectors [] =
      (Except.error (UpdateError.ServiceError
        "No segments exists, expected at least one"), []) := rfl

theorem set_payload_concrete (op_num : SeqNumberType)
    (payload : List (PayloadKeyType × PayloadInterface))
    (points : List PointIdType) (segs : List Segment) :
    set_payload specSegmentEntry op_num payload points segs =
      (match check_unprocessed_points points (fanFound points segs) with
       | Except.error e => Except.error e
       | Except.ok _ =>
           Except.ok (fanCountTotal (setPFb op_num payload) (setPFs op_num payload)
             points segs),
       fanned (setPFs op_num payload) points segs) := by
  unfold set_payload
  rw [apply_points_eq specSegmentEntry op_num points
      (setPayloadClosure specSegmentEntry op_num payload)
      (setPFb op_num payload) (setPFs op_num payload) insertSet
      (setPayloadClosure_spec op_num payload) segs []]
  simp only []
  rw [show (List.foldl (fun a s => List.foldl (fun a id => insertSet id a) a
      (heldIds specSegmentEntry points s)) ([] : List PointIdType) segs) =
      fanFound points segs from rfl]
  cases hc : check_unprocessed_points points (fanFound points segs) <;> rfl

theorem delete_payload_concrete (op_num : SeqNumberType)
    (points : List PointIdType) (keys : List PayloadKeyType)
    (segs : List Segment) :
    delete_payload specSegmentEntry op_num points keys segs =
      (match check_unprocessed_points points (fanFound points segs) with
       | Except.error e => Except.error e
       | Except.ok _ =>
           Except.ok (fanCountTotal (delPFb op_num keys) (delPFs op_num keys)
             points segs),
       fanned (delPFs op_num keys) points segs) := by
  unfold delete_payload
  rw [apply_points_eq specSegmentEntry op_num points
      (deletePayloadClosure specSegmentEntry op_num keys)
      (delPFb op_num keys) (delPFs op_num keys) insertSet
      (deletePayloadClosure_spec op_num keys) segs []]
  simp only []
  rw [show (List.foldl (fun a s => List.foldl (fun a id => insertSet id a) a
      (heldIds specSegmentEntry points s)) ([] : List PointIdType) segs) =
      fanFound points segs from rfl]
  cases hc : check_unprocessed_points points (fanFound points segs) <;> rfl

theorem clear_payload_concrete (op_num : SeqNumberType)
    (points : List PointIdType) (segs : List Segment) :
    clear_payload specSegmentEntry op_num points segs =
      (match check_unprocessed_points points (fanFound points segs) with
       | Except.error e => Except.error e
       | Except.ok _ =>
           Except.ok (fanCountTotal (clearFb op_num) (clearFs op_num) points segs),
       fanned (clearFs op_num) points segs) := by
  unfold clear_payload
  rw [apply_points_eq specSegmentEntry op_num points
      (clearPayloadClosure specSegmentEntry op_num)
      (clearFb op_num) (clearFs op_num) insertSet
      (clearPayloadClosure_spec op_num) segs []]
  simp only []
  rw [show (List.foldl (fun a s => List.foldl (fun a id => insertSet id a) a
      (heldIds specSegmentEntry points s)) ([] : List PointIdType) segs) =
      fanFound points segs from rfl]
  cases hc : check_unprocessed_points points (fanFound points segs) <;> rfl

/-! ## Claim C1: the membership invariant is preserved -/

/-- Fan-out with the upsert effect preserves which ids each segment holds
(the closure only ever touches ids the segment already holds). -/
theorem upsertFan_holds (op_num : SeqNumberType) (pm : PointIdType → VectorType)
    (ids : List PointIdType) (s : Segment) (x : PointIdType) :
    segHolds (segFoldState (upsertFs op_num pm) (heldIds specSegmentEntry ids s) s) x
      = segHolds s x := by
  apply segFoldState_holds
  · intro id s' hh x'
    unfold upsertFs
    rw [upsertPoint_holds]
    by_cases hx : x' = id
    · subst hx; simp [hh]
    · simp [hx]
  · intro id hm
    rcases (mem_heldIds specSegmentEntry ids s id).mp hm with ⟨_, hh⟩
    exact hh

theorem countP_fanned_upsert (op_num : SeqNumberType) (pm : PointIdType → VectorType)
    (ids : List PointIdType) (segs : List Segment) (id : PointIdType) :
    (fanned (upsertFs op_num pm) ids segs).countP (fun s => segHolds s id)
      = segs.countP (fun s => segHolds s id) := by
  unfold fanned
  rw [List.countP_map]
  apply List.countP_congr
  intro s _
  simp only [Function.comp]
  rw [upsertFan_holds]

theorem process_point_operation_unique (choice : Nat) (op_num : SeqNumberType)
    (pop : PointOps) (segs : List Segment) (hU : UniqueHold segs) :
    UniqueHold (process_point_operation specSegmentEntry choice op_num pop segs).2 := by
  cases pop with
  | DeletePoints ids =>
      simp only [process_point_operation, delete_points_concrete]
      intro id
      unfold fanned
      rw [List.countP_map]
      refine le_trans (le_trans (List.countP_mono_left ?_) le_rfl) (hU id)
      intro s _ h
      simp only [Function.comp] at h ⊢
      exact segFoldState_holds_imp (deleteFs op_num)
        (fun i s' x => deletePoint_holds_imp op_num i x s') _ s id h
  | UpsertPoints ids vectors =>
      cases hs : segs with
      | nil =>
          simp only [process_point_operation, upsert_points_nil]
          intro id; simp
      | cons s0 rest =>
          rw [← hs]
          have hne : segs ≠ [] := by rw [hs]; exact List.cons_ne_nil s0 rest
          simp only [process_point_operation,
            upsert_points_concrete choice op_num ids vectors segs hne]
          intro id
          by_cases hmem : id ∈ newPoints ids segs
          · have hb : heldByAny segs id = false := ((newPoints_mem ids segs id).mp hmem).2
            have h0 : segs.countP (fun s => segHolds s id) = 0 := by
              rw [List.countP_eq_zero]
              intro s hsm hc
              have : heldByAny segs id = true := List.any_eq_true.mpr ⟨s, hsm, hc⟩
              rw [hb] at this; cases this
            have h1 : (fanned (upsertFs op_num (pointsMap ids vectors)) ids segs).countP
                (fun s => segHolds s id) = 0 := by
              rw [countP_fanned_upsert, h0]
            calc (modifyAt _ (fanned (upsertFs op_num (pointsMap ids vectors)) ids segs)
                    (choice % segs.length)).countP (fun s => segHolds s id)
                ≤ (fanned (upsertFs op_num (pointsMap ids vectors)) ids segs).countP
                    (fun s => segHolds s id) + 1 := countP_modifyAt_le _ _ _ _
              _ ≤ 1 := by rw [h1]
          · have hpres : ∀ s : Segment,
                segHolds (residualUpserts specSegmentEntry op_num (pointsMap ids vectors)
                  (newPoints ids segs) s) id = segHolds s id := by
              intro s
              rw [residualUpserts_eq_core, residualCore_holds]
              simp [hmem]
            rw [countP_modifyAt_eq _ _ hpres, countP_fanned_upsert]
            exact hU id

/-- Apply a list of point operations in order; each entry carries the RNG
draw, the sequence number and the operation.  The post-state is kept even
when a call reports an error, as in the mutable original. -/
def applyPointOps : List (Nat × SeqNumberType × PointOps) → List Segment → List Segment
  | [], segs => segs
  | (choice, op_num, pop) :: rest, segs =>
      applyPointOps rest (process_point_operation specSegmentEntry choice op_num pop segs).2

/-- C1: for every sequence of upsert and delete calls starting from a state
in which every record identifier is held by at most one segment, after each
call completes every record identifier is still held by at most one segment
(new records go to exactly one chosen segment; updates only touch segments
already holding the id). -/
theorem point_ops_preserve_unique_membership
    (ops : List (Nat × SeqNumberType × PointOps)) :
    ∀ segs : List Segment, UniqueHold segs → UniqueHold (applyPointOps ops segs) := by
  induction ops with
  | nil => intro segs hU; exact hU
  | cons op rest ih =>
      intro segs hU
      rcases op with ⟨choice, op_num, pop⟩
      exact ih _ (process_point_operation_unique choice op_num pop segs hU)

/-- Witness for C1 at a concrete input: one initially empty segment, an
upsert of two new points followed by a delete of one of them. -/
theorem point_ops_preserve_unique_membership_witness :
    UniqueHold (applyPointOps
      [(0, 1, PointOps.UpsertPoints [7, 8] [[1], [2]]),
       (1, 2, PointOps.DeletePoints [7])] [[]]) := by
  apply point_ops_preserve_unique_membership
  intro id
  exact le_trans (List.countP_le_length _) (by simp)

/-! ## Claim C8: delete never fails; absent ids count zero -/

/-- C8: `delete_points` always succeeds, and under normal operation (fresh
sequence number, duplicate-free ids, membership invariant) the returned
count is exactly the number of requested ids actually held — ids held by no
segment contribute 0 and raise no `NotFound`. -/
theorem delete_points_no_error_and_count :
    (∀ (op_num : SeqNumberType) (ids : List PointIdType) (segs : List Segment),
      ∃ n, (delete_points specSegmentEntry op_num ids segs).1 = Except.ok n) ∧
    (∀ (op_num : SeqNumberType) (ids : List PointIdType) (segs : List Segment),
      ids.Nodup → UniqueHold segs → FreshFor op_num segs →
      (delete_points specSegmentEntry op_num ids segs).1 =
        Except.ok ((ids.filter (fun id => heldByAny segs id)).length)) := by
  constructor
  · intro op_num ids segs
    rw [delete_points_concrete]
    exact ⟨_, rfl⟩
  · intro op_num ids segs hnodup hU hFresh
    rw [delete_points_concrete]
    unfold fanCountTotal
    rw [fanCount_eq_found op_num (deleteFb op_num) (deleteFs op_num) ids segs
      hnodup hU hFresh]
    · intro id s hQ
      rcases hQ with ⟨r, hr, hv⟩
      unfold deleteFb Segment.deletePoint
      rw [hr]
      simp [Nat.not_le_of_lt hv]
    · intro id id' s hne
      exact deletePoint_lookup_ne op_num id id' s hne

/-- Witness for C8 at a concrete input: ids `[1, 2]` with only `1` held. -/
theorem delete_points_no_error_and_count_witness :
    (delete_points specSegmentEntry 5 [1, 2]
        [[(1, ⟨0, [], []⟩)]]).1 = Except.ok 1 := by
  have h := delete_points_no_error_and_count.2 5 [1, 2] [[(1, ⟨0, [], []⟩)]]
    (by decide)
    (fun id => le_trans (List.countP_le_length _) (by simp))
    (by unfold FreshFor; decide)
  exact h

/-! ## Claim C6: when `upsert_points` raises `ServiceError` -/

/-- Counterexample for C6 as stated: with an empty id list the residual set
is empty, yet on an empty segment set `upsert_points` still fails with the
no-segments `ServiceError`, because `random_segment` is consulted
unconditionally before the residual loop. -/
theorem upsert_points_service_error_empty_residual :
    upsert_points specSegmentEntry 0 1 [] [] ([] : List Segment) =
      (Except.error (UpdateError.ServiceError
        "No segments exists, expected at least one"), []) := rfl

/-- C6 (amended): on the concrete store `upsert_points` fails, necessarily
with the no-segments `ServiceError`, exactly when the live segment set is
empty — regardless of whether the residual set is empty. -/
theorem upsert_points_error_iff_no_segments (choice : Nat)
    (op_num : SeqNumberType) (ids : List PointIdType)
    (vectors : List VectorType) (segs : List Segment) :
    ((∃ e, (upsert_points specSegmentEntry choice op_num ids vectors segs).1 =
        Except.error e) ↔ segs = []) ∧
    (segs = [] →
      (upsert_points specSegmentEntry choice op_num ids vectors segs).1 =
        Except.error (UpdateError.ServiceError
          "No segments exists, expected at least one")) := by
  constructor
  · constructor
    · intro h
      rcases h with ⟨e, he⟩
      cases hs : segs with
      | nil => rfl
      | cons s0 rest =>
          rw [hs] at he
          rw [upsert_points_concrete choice op_num ids vectors (s0 :: rest)
            (List.cons_ne_nil s0 rest)] at he
          cases he
    · intro h
      subst h
      exact ⟨_, rfl⟩
  · intro h
    subst h
    rfl

/-- Witness for C6 (amended) at a concrete input. -/
theorem upsert_points_error_iff_no_segments_witness :
    (upsert_points specSegmentEntry 3 9 [4] [[5]] ([] : List Segment)).1 =
      Except.error (UpdateError.ServiceError
        "No segments exists, expected at least one") :=
  (upsert_points_error_iff_no_segments 3 9 [4] [[5]] []).2 rfl

/-! ## Claim C3: payload operations and missing points -/

theorem fanFound_contains (points : List PointIdType) (segs : List Segment)
    (p : PointIdType) (hp : p ∈ points) :
    (fanFound points segs).contains p = heldByAny segs p := by
  cases hb : heldByAny segs p with
  | true => exact List.elem_iff.mpr ((fanFound_mem points segs p).mpr ⟨hp, hb⟩)
  | false =>
      cases hc : (fanFound points segs).contains p with
      | false => rfl
      | true =>
          have := (fanFound_mem points segs p).mp (List.elem_iff.mp hc)
          rw [hb] at this
          cases this.2

theorem check_unprocessed_eq (points : List PointIdType) (segs : List Segment) :
    check_unprocessed_points points (fanFound points segs) =
      match points.find? (fun p => !heldByAny segs p) with
      | some m => Except.error (UpdateError.NotFound m)
      | none => Except.ok (fanFound points segs).length := by
  unfold check_unprocessed_points
  rw [find?_congr _ _ points
    (fun p hp => by rw [fanFound_contains points segs p hp])]
  cases points.find? (fun p => !heldByAny segs p) <;> rfl

/-- C3: a payload operation (`set_payload`, `delete_payload`,
`clear_payload`) naming a point held by no live segment fails with
`NotFound` carrying the first such missing id in input order; when every
requested point is held somewhere, no such failure occurs and the call
succeeds. -/
theorem payload_ops_not_found (op_num : SeqNumberType)
    (payload : List (PayloadKeyType × PayloadInterface))
    (keys : List PayloadKeyType) (points : List PointIdType)
    (segs : List Segment) :
    (∀ m, points.find? (fun p => !heldByAny segs p) = some m →
      (set_payload specSegmentEntry op_num payload points segs).1 =
          Except.error (UpdateError.NotFound m) ∧
      (delete_payload specSegmentEntry op_num points keys segs).1 =
          Except.error (UpdateError.NotFound m) ∧
      (clear_payload specSegmentEntry op_num points segs).1 =
          Except.error (UpdateError.NotFound m)) ∧
    (points.find? (fun p => !heldByAny segs p) = none →
      (∃ n, (set_payload specSegmentEntry op_num payload points segs).1 =
          Except.ok n) ∧
      (∃ n, (delete_payload specSegmentEntry op_num points keys segs).1 =
          Except.ok n) ∧
      (∃ n, (clear_payload specSegmentEntry op_num points segs).1 =
          Except.ok n)) := by
  constructor
  · intro m hm
    refine ⟨?_, ?_, ?_⟩
    · rw [set_payload_concrete, check_unprocessed_eq, hm]
    · rw [delete_payload_concrete, check_unprocessed_eq, hm]
    · rw [clear_payload_concrete, check_unprocessed_eq, hm]
  · intro hm
    refine ⟨⟨fanCountTotal (setPFb op_num payload) (setPFs op_num payload)
        points segs, ?_⟩,
      ⟨fanCountTotal (delPFb op_num keys) (delPFs op_num keys) points segs, ?_⟩,
      ⟨fanCountTotal (clearFb op_num) (clearFs op_num) points segs, ?_⟩⟩
    · rw [set_payload_concrete, check_unprocessed_eq, hm]
    · rw [delete_payload_concrete, check_unprocessed_eq, hm]
    · rw [clear_payload_concrete, check_unprocessed_eq, hm]

/-- Witness for C3 at a concrete input: points `[1, 77, 88]` with only `1`
held; the error names `77`, the first missing id in input order. -/
theorem payload_ops_not_found_witness :
    (set_payload specSegmentEntry 9 [("color", "red")] [1, 77, 88]
        [[(1, ⟨0, [], []⟩)]]).1 = Except.error (UpdateError.NotFound 77) ∧
    (delete_payload specSegmentEntry 9 [1, 77, 88] ["color"]
        [[(1, ⟨0, [], []⟩)]]).1 = Except.error (UpdateError.NotFound 77) ∧
    (clear_payload specSegmentEntry 9 [1, 77, 88]
        [[(1, ⟨0, [], []⟩)]]).1 = Except.error (UpdateError.NotFound 77) :=
  (payload_ops_not_found 9 [("color", "red")] ["color"] [1, 77, 88]
    [[(1, ⟨0, [], []⟩)]]).1 77 (by decide)

/-! ## Claim C4: the NotFound error does not roll back applied mutations -/

theorem getD_map {σ τ : Type} (f : σ → τ) (d : τ) (d0 : σ) :
    ∀ (l : List σ) (i : Nat), i < l.length →
      (l.map f).getD i d = f (l.getD i d0) := by
  intro l
  induction l with
  | nil => intro i h; cases h
  | cons s rest ih =>
      intro i h
      cases i with
      | zero => rfl
      | succ j =>
          simp only [List.map_cons, List.getD_cons_succ]
          exact ih j (Nat.lt_of_succ_lt_succ h)

/-- Effect of one segment set-payload call on the point's own record. -/
theorem setPayloadKey_lookup_self (op_num : SeqNumberType) (id : PointIdType)
    (key : PayloadKeyType) (value : PayloadType) (s : Segment) :
    segLookup id (Segment.setPayloadKey op_num id key value s).2 =
      match segLookup id s with
      | none => none
      | some r =>
          if op_num ≤ r.version then some r
          else some ⟨op_num, r.vector, payloadInsert key value r.payload⟩ := by
  unfold Segment.setPayloadKey
  cases hl : segLookup id s with
  | none => simp [hl]
  | some r =>
      by_cases hv : op_num ≤ r.version
      · simp [hv, hl]
      · simp [hv, segLookup_segInsert_self]

/-- Effect of one segment delete-payload call on the point's own record. -/
theorem deletePayloadKey_lookup_self (op_num : SeqNumberType) (id : PointIdType)
    (key : PayloadKeyType) (s : Segment) :
    segLookup id (Segment.deletePayloadKey op_num id key s).2 =
      match segLookup id s with
      | none => none
      | some r =>
          if op_num ≤ r.version then some r
          else some ⟨op_num, r.vector, payloadRemove key r.payload⟩ := by
  unfold Segment.deletePayloadKey
  cases hl : segLookup id s with
  | none => simp [hl]
  | some r =>
      by_cases hv : op_num ≤ r.version
      · simp [hv, hl]
      · simp [hv, segLookup_segInsert_self]

/-- Effect of the per-point clear-payload call on the point's own record. -/
theorem clearFs_lookup_self (op_num : SeqNumberType) (id : PointIdType)
    (s : Segment) :
    segLookup id (clearFs op_num id s) =
      match segLookup id s with
      | none => none
      | some r =>
          if op_num ≤ r.version then some r
          else some ⟨op_num, r.vector, []⟩ := by
  unfold clearFs Segment.clearPayloadPoint
  cases hl : segLookup id s with
  | none => simp [hl]
  | some r =>
      by_cases hv : op_num ≤ r.version
      · simp [hv, hl]
      · simp [hv, segLookup_segInsert_self]

/-- After the first key of a set-payload loop, the point's record is stale
for the operation's sequence number, so the remaining keys leave the segment
unchanged: the loop's state effect is that of its first key. -/
theorem setPFs_cons_state (op_num : SeqNumberType) (key : PayloadKeyType)
    (p : PayloadInterface) (rest : List (PayloadKeyType × PayloadInterface))
    (id : PointIdType) (s : Segment) :
    setPFs op_num ((key, p) :: rest) id s =
      (Segment.setPayloadKey op_num id key (toPayload p) s).2 := by
  unfold setPFs
  simp only [setPayloadLoopCore]
  rw [setPayloadLoopCore_stale op_num id
    (fun k v s0 hst => setPayloadKey_stale op_num id k v s0 hst) rest _ _
    (setPayloadKey_staleFor_self op_num id key (toPayload p) s)]

/-- The delete-payload loop's state effect is that of its first key. -/
theorem delPFs_cons_state (op_num : SeqNumberType) (key : PayloadKeyType)
    (krest : List PayloadKeyType) (id : PointIdType) (s : Segment) :
    delPFs op_num (key :: krest) id s =
      (Segment.deletePayloadKey op_num id key s).2 := by
  unfold delPFs
  simp only [deletePayloadLoopCore]
  rw [deletePayloadLoopCore_stale op_num id krest _ _
    (deletePayloadKey_staleFor_self op_num id key s)]

theorem setPFs_cons_lookup (op_num : SeqNumberType) (key : PayloadKeyType)
    (p : PayloadInterface) (rest : List (PayloadKeyType × PayloadInterface))
    (id : PointIdType) (s : Segment) :
    segLookup id (setPFs op_num ((key, p) :: rest) id s) =
      match segLookup id s with
      | none => none
      | some r =>
          if op_num ≤ r.version then some r
          else some ⟨op_num, r.vector, payloadInsert key (toPayload p) r.payload⟩ := by
  rw [setPFs_cons_state, setPayloadKey_lookup_self]

theorem delPFs_cons_lookup (op_num : SeqNumberType) (key : PayloadKeyType)
    (krest : List PayloadKeyType) (id : PointIdType) (s : Segment) :
    segLookup id (delPFs op_num (key :: krest) id s) =
      match segLookup id s with
      | none => none
      | some r =>
          if op_num ≤ r.version then some r
          else some ⟨op_num, r.vector, payloadRemove key r.payload⟩ := by
  rw [delPFs_cons_state, deletePayloadKey_lookup_self]

/-- After a fan-out, a found point's record in its segment is the per-point
effect `R` applied to its old record (other points' work does not touch it). -/
theorem fanned_lookup_found (Fs : PointIdType → Segment → Segment)
    (R : PointIdType → Option Record → Option Record)
    (hypNe : ∀ i i' s, i' ≠ i → segLookup i' (Fs i s) = segLookup i' s)
    (hypR : ∀ i s, segLookup i (Fs i s) = R i (segLookup i s))
    (points : List PointIdType) (segs : List Segment) (hnodup : points.Nodup) :
    ∀ j, j < segs.length → ∀ id ∈ points,
      segHolds (segs.getD j []) id = true →
      segLookup id ((fanned Fs points segs).getD j []) =
        R id (segLookup id (segs.getD j [])) := by
  intro j hj id hid hh
  unfold fanned
  rw [getD_map _ _ ([] : Segment) segs j hj]
  have hmem : id ∈ heldIds specSegmentEntry points (segs.getD j []) := by
    rw [mem_heldIds]
    exact ⟨hid, hh⟩
  exact segFoldState_result Fs R hypNe hypR
    (heldIds specSegmentEntry points (segs.getD j [])) (hnodup.filter _)
    (segs.getD j []) id hmem

/-- C4: when a payload operation — `set_payload`, `delete_payload` or
`clear_payload`, with arbitrary (nonempty) payload map or key list — fails
with `NotFound` because some requested id was absent from every segment, the
payload mutations already applied to the points that were found remain
committed in the returned segment states: the error neither rolls back nor
prevents those side effects. -/
theorem payload_ops_partial_commit (op_num : SeqNumberType)
    (key dkey : PayloadKeyType) (p : PayloadInterface)
    (rest : List (PayloadKeyType × PayloadInterface))
    (krest : List PayloadKeyType) (points : List PointIdType)
    (segs : List Segment) (m : PointIdType) (hnodup : points.Nodup) :
    ((set_payload specSegmentEntry op_num ((key, p) :: rest) points segs).1 =
        Except.error (UpdateError.NotFound m) →
      ∀ j, j < segs.length → ∀ id ∈ points, ∀ r : Record,
        segLookup id (segs.getD j []) = some r → r.version < op_num →
        segLookup id ((set_payload specSegmentEntry op_num ((key, p) :: rest)
            points segs).2.getD j []) =
          some ⟨op_num, r.vector, payloadInsert key (toPayload p) r.payload⟩) ∧
    ((delete_payload specSegmentEntry op_num points (dkey :: krest) segs).1 =
        Except.error (UpdateError.NotFound m) →
      ∀ j, j < segs.length → ∀ id ∈ points, ∀ r : Record,
        segLookup id (segs.getD j []) = some r → r.version < op_num →
        segLookup id ((delete_payload specSegmentEntry op_num points
            (dkey :: krest) segs).2.getD j []) =
          some ⟨op_num, r.vector, payloadRemove dkey r.payload⟩) ∧
    ((clear_payload specSegmentEntry op_num points segs).1 =
        Except.error (UpdateError.NotFound m) →
      ∀ j, j < segs.length → ∀ id ∈ points, ∀ r : Record,
        segLookup id (segs.getD j []) = some r → r.version < op_num →
        segLookup id ((clear_payload specSegmentEntry op_num points
            segs).2.getD j []) =
          some ⟨op_num, r.vector, []⟩) := by
  refine ⟨?_, ?_, ?_⟩
  · intro _ j hj id hid r hr hv
    have hsnd : (set_payload specSegmentEntry op_num ((key, p) :: rest)
        points segs).2 = fanned (setPFs op_num ((key, p) :: rest)) points segs :=
      congrArg Prod.snd (set_payload_concrete op_num ((key, p) :: rest) points segs)
    rw [hsnd]
    rw [fanned_lookup_found (setPFs op_num ((key, p) :: rest))
      (fun i ro =>
        match ro with
        | none => none
        | some r =>
            if op_num ≤ r.version then some r
            else some ⟨op_num, r.vector, payloadInsert key (toPayload p) r.payload⟩)
      (fun i i' s h => setPayloadLoopCore_lookup_ne op_num i i' h
        ((key, p) :: rest) true s)
      (fun i s => setPFs_cons_lookup op_num key p rest i s)
      points segs hnodup j hj id hid (by unfold segHolds; rw [hr]; rfl)]
    rw [hr]
    simp [Nat.not_le_of_lt hv]
  · intro _ j hj id hid r hr hv
    have hsnd : (delete_payload specSegmentEntry op_num points
        (dkey :: krest) segs).2 = fanned (delPFs op_num (dkey :: krest)) points segs :=
      congrArg Prod.snd (delete_payload_concrete op_num points (dkey :: krest) segs)
    rw [hsnd]
    rw [fanned_lookup_found (delPFs op_num (dkey :: krest))
      (fun i ro =>
        match ro with
        | none => none
        | some r =>
            if op_num ≤ r.version then some r
            else some ⟨op_num, r.vector, payloadRemove dkey r.payload⟩)
      (fun i i' s h => deletePayloadLoopCore_lookup_ne op_num i i' h
        (dkey :: krest) true s)
      (fun i s => delPFs_cons_lookup op_num dkey krest i s)
      points segs hnodup j hj id hid (by unfold segHolds; rw [hr]; rfl)]
    rw [hr]
    simp [Nat.not_le_of_lt hv]
  · intro _ j hj id hid r hr hv
    have hsnd : (clear_payload specSegmentEntry op_num points segs).2 =
        fanned (clearFs op_num) points segs :=
      congrArg Prod.snd (clear_payload_concrete op_num points segs)
    rw [hsnd]
    rw [fanned_lookup_found (clearFs op_num)
      (fun i ro =>
        match ro with
        | none => none
        | some r =>
            if op_num ≤ r.version then some r
            else some ⟨op_num, r.vector, []⟩)
      (fun i i' s h => clearPayloadPoint_lookup_ne op_num i i' s h)
      (fun i s => clearFs_lookup_self op_num i s)
      points segs hnodup j hj id hid (by unfold segHolds; rw [hr]; rfl)]
    rw [hr]
    simp [Nat.not_le_of_lt hv]

/-- Witness for C4 at a concrete input: point 1 is found and mutated by each
of the three operations (two-key payload and key list), point 9 is missing;
every call errors with `NotFound 9` yet point 1's mutation is committed. -/
theorem payload_ops_partial_commit_witness :
    segLookup 1 ((set_payload specSegmentEntry 5 [("c", "r"), ("d", "q")] [1, 9]
        [[(1, ⟨0, [], [("c", "x")]⟩)]]).2.getD 0 []) =
      some ⟨5, [], [("c", "r")]⟩ ∧
    segLookup 1 ((delete_payload specSegmentEntry 5 [1, 9] ["c", "e"]
        [[(1, ⟨0, [], [("c", "x")]⟩)]]).2.getD 0 []) = some ⟨5, [], []⟩ ∧
    segLookup 1 ((clear_payload specSegmentEntry 5 [1, 9]
        [[(1, ⟨0, [], [("c", "x")]⟩)]]).2.getD 0 []) = some ⟨5, [], []⟩ := by
  have h := payload_ops_partial_commit 5 "c" "c" "r" [("d", "q")] ["e"] [1, 9]
    [[(1, ⟨0, [], [("c", "x")]⟩)]] 9 (by decide)
  exact ⟨h.1 rfl 0 (by decide) 1 (by decide) ⟨0, [], [("c", "x")]⟩ rfl (by decide),
    h.2.1 rfl 0 (by decide) 1 (by decide) ⟨0, [], [("c", "x")]⟩ rfl (by decide),
    h.2.2 rfl 0 (by decide) 1 (by decide) ⟨0, [], [("c", "x")]⟩ rfl (by decide)⟩

/-! ## Claim C10: the returned count is the fan-out count -/

theorem segFoldCount_le_length {σ : Type} (Fb : PointIdType → σ → Bool)
    (Fs : PointIdType → σ → σ) :
    ∀ (H : List PointIdType) (s : σ), segFoldCount Fb Fs H s ≤ H.length := by
  intro H
  induction H with
  | nil => intro s; exact Nat.le_refl 0
  | cons id rest ih =>
      intro s
      simp only [segFoldCount, List.length_cons]
      have := ih (Fs id s)
      by_cases h : Fb id s = true <;> simp [h] <;> omega

theorem fanCountTotal_le_found (op_num : SeqNumberType)
    (Fb : PointIdType → Segment → Bool) (Fs : PointIdType → Segment → Segment)
    (points : List PointIdType) (segs : List Segment) (hU : UniqueHold segs) :
    fanCountTotal Fb Fs points segs ≤
      (points.filter (fun id => heldByAny segs id)).length := by
  unfold fanCountTotal
  calc (segs.map (fun s => segFoldCount Fb Fs (heldIds specSegmentEntry points s) s)).sum
      ≤ (segs.map (fun s => (heldIds specSegmentEntry points s).length)).sum :=
        List.sum_le_sum (fun s _ => segFoldCount_le_length Fb Fs _ s)
    _ = (points.map (fun id => segs.countP (fun s => specSegmentEntry.has_point s id))).sum :=
        sum_heldIds_length specSegmentEntry points segs
    _ = (points.map (fun id => if heldByAny segs id then 1 else 0)).sum := by
        apply congrArg List.sum
        apply List.map_congr_left
        intro id _
        rw [show (fun s => specSegmentEntry.has_point s id) =
          fun s => segHolds s id from rfl]
        exact countP_holds_of_unique segs id hU
    _ = (points.filter (fun id => heldByAny segs id)).length :=
        sum_indicator_filter _ points

/-- C10: on success the payload operations return the count produced by the
segment fan-out (bounded by, but not necessarily equal to, the number of
found points) — the processed-point count computed by the completeness
check is discarded, so a successful call over one found point can return 0
(stale sequence number) or 1 (fresh). -/
theorem payload_count_is_fanout_count :
    (∀ (op_num : SeqNumberType)
        (payload : List (PayloadKeyType × PayloadInterface))
        (points : List PointIdType) (segs : List Segment),
      UniqueHold segs → points.find? (fun p => !heldByAny segs p) = none →
      ∃ res, (set_payload specSegmentEntry op_num payload points segs).1 =
          Except.ok res ∧
        res ≤ (points.filter (fun id => heldByAny segs id)).length) ∧
    (set_payload specSegmentEntry 5 [("c", "r")] [1]
        [[(1, ⟨9, [], []⟩)]]).1 = Except.ok 0 ∧
    (set_payload specSegmentEntry 5 [("c", "r")] [1]
        [[(1, ⟨0, [], []⟩)]]).1 = Except.ok 1 ∧
    (delete_payload specSegmentEntry 5 [1] ["c"]
        [[(1, ⟨9, [], [("c", "x")]⟩)]]).1 = Except.ok 0 ∧
    (clear_payload specSegmentEntry 5 [1]
        [[(1, ⟨9, [], [("c", "x")]⟩)]]).1 = Except.ok 0 := by
  refine ⟨?_, rfl, rfl, rfl, rfl⟩
  intro op_num payload points segs hU hfind
  rw [set_payload_concrete, check_unprocessed_eq, hfind]
  exact ⟨_, rfl, fanCountTotal_le_found op_num _ _ points segs hU⟩

/-- Witness for C10's universally quantified part at a concrete input. -/
theorem payload_count_is_fanout_count_witness :
    ∃ res, (set_payload specSegmentEntry 5 [("c", "r")] [1]
        [[(1, ⟨0, [], []⟩)]]).1 = Except.ok res ∧
      res ≤ (([1] : List PointIdType).filter
        (fun id => heldByAny [[(1, ⟨0, [], []⟩)]] id)).length :=
  payload_count_is_fanout_count.1 5 [("c", "r")] [1] [[(1, ⟨0, [], []⟩)]]
    (fun id => le_trans (List.countP_le_length _) (by simp)) (by decide)

/-! ## Claim C9: per-point result is the AND of the per-key results -/

/-- The individual per-key results of the segment set-payload calls made for
one point, in call order, threading the segment state; an error stops the
sequence. -/
def payloadKeyResults {σ : Type} (E : SegmentEntry σ) (op_num : SeqNumberType)
    (id : PointIdType) :
    List (PayloadKeyType × PayloadInterface) → σ →
      (Except OperationError (List Bool)) × σ
  | [], s => (Except.ok [], s)
  | (key, p) :: rest, s =>
      match E.set_payload op_num id key (toPayload p) s with
      | (Except.error e, s1) => (Except.error e, s1)
      | (Except.ok b, s1) =>
          match payloadKeyResults E op_num id rest s1 with
          | (Except.error e, s2) => (Except.error e, s2)
          | (Except.ok bs, s2) => (Except.ok (b :: bs), s2)

/-- The individual per-key results of the segment delete-payload calls made
for one point. -/
def deleteKeyResults {σ : Type} (E : SegmentEntry σ) (op_num : SeqNumberType)
    (id : PointIdType) :
    List PayloadKeyType → σ → (Except OperationError (List Bool)) × σ
  | [], s => (Except.ok [], s)
  | key :: rest, s =>
      match E.delete_payload op_num id key s with
      | (Except.error e, s1) => (Except.error e, s1)
      | (Except.ok b, s1) =>
          match deleteKeyResults E op_num id rest s1 with
          | (Except.error e, s2) => (Except.error e, s2)
          | (Except.ok bs, s2) => (Except.ok (b :: bs), s2)

theorem bool_and_rotate (a b c : Bool) : (a && (b && c)) = ((b && a) && c) := by
  cases a <;> cases b <;> cases c <;> rfl

theorem setPayloadLoop_and_gen {σ : Type} (E : SegmentEntry σ)
    (op_num : SeqNumberType) (id : PointIdType) :
    ∀ (payload : List (PayloadKeyType × PayloadInterface)) (res : Bool) (s : σ),
      (∀ bs s1, payloadKeyResults E op_num id payload s = (Except.ok bs, s1) →
        setPayloadLoop E op_num id payload res s =
          (Except.ok ((bs.all (fun b => b)) && res), s1)) ∧
      (∀ e s1, payloadKeyResults E op_num id payload s = (Except.error e, s1) →
        setPayloadLoop E op_num id payload res s = (Except.error e, s1)) := by
  intro payload
  induction payload with
  | nil =>
      intro res s
      constructor
      · intro bs s1 h
        unfold payloadKeyResults at h
        cases h
        simp [setPayloadLoop]
      · intro e s1 h
        unfold payloadKeyResults at h
        cases h
  | cons kp rest ih =>
      intro res s
      cases kp with
      | mk key p =>
          constructor
          · intro bs s1 h
            unfold payloadKeyResults at h
            cases hcall : E.set_payload op_num id key (toPayload p) s with
            | mk r0 s0 =>
                rw [hcall] at h
                cases r0 with
                | error e => cases h
                | ok b =>
                    simp only [setPayloadLoop, hcall]
                    simp only [] at h
                    cases hrest : payloadKeyResults E op_num id rest s0 with
                    | mk r1 s2 =>
                        rw [hrest] at h
                        cases r1 with
                        | error e => cases h
                        | ok bs0 =>
                            cases h
                            rw [(ih (b && res) s0).1 bs0 s1 hrest]
                            simp only [List.all_cons]
                            rw [bool_and_rotate]
          · intro e s1 h
            unfold payloadKeyResults at h
            cases hcall : E.set_payload op_num id key (toPayload p) s with
            | mk r0 s0 =>
                rw [hcall] at h
                cases r0 with
                | error e0 =>
                    cases h
                    simp [setPayloadLoop, hcall]
                | ok b =>
                    simp only [setPayloadLoop, hcall]
                    simp only [] at h
                    cases hrest : payloadKeyResults E op_num id rest s0 with
                    | mk r1 s2 =>
                        rw [hrest] at h
                        cases r1 with
                        | error e1 =>
                            cases h
                            exact (ih (b && res) s0).2 e s1 hrest
                        | ok bs0 => cases h

theorem deletePayloadLoop_and_gen {σ : Type} (E : SegmentEntry σ)
    (op_num : SeqNumberType) (id : PointIdType) :
    ∀ (keys : List PayloadKeyType) (res : Bool) (s : σ),
      (∀ bs s1, deleteKeyResults E op_num id keys s = (Except.ok bs, s1) →
        deletePayloadLoop E op_num id keys res s =
          (Except.ok ((bs.all (fun b => b)) && res), s1)) ∧
      (∀ e s1, deleteKeyResults E op_num id keys s = (Except.error e, s1) →
        deletePayloadLoop E op_num id keys res s = (Except.error e, s1)) := by
  intro keys
  induction keys with
  | nil =>
      intro res s
      constructor
      · intro bs s1 h
        unfold deleteKeyResults at h
        cases h
        simp [deletePayloadLoop]
      · intro e s1 h
        unfold deleteKeyResults at h
        cases h
  | cons key rest ih =>
      intro res s
      constructor
      · intro bs s1 h
        unfold deleteKeyResults at h
        cases hcall : E.delete_payload op_num id key s with
        | mk r0 s0 =>
            rw [hcall] at h
            cases r0 with
            | error e => cases h
            | ok b =>
                simp only [deletePayloadLoop, hcall]
                simp only [] at h
                cases hrest : deleteKeyResults E op_num id rest s0 with
                | mk r1 s2 =>
                    rw [hrest] at h
                    cases r1 with
                    | error e => cases h
                    | ok bs0 =>
                        cases h
                        rw [(ih (b && res) s0).1 bs0 s1 hrest]
                        simp only [List.all_cons]
                        rw [bool_and_rotate]
      · intro e s1 h
        unfold deleteKeyResults at h
        cases hcall : E.delete_payload op_num id key s with
        | mk r0 s0 =>
            rw [hcall] at h
            cases r0 with
            | error e0 =>
                cases h
                simp [deletePayloadLoop, hcall]
            | ok b =>
                simp only [deletePayloadLoop, hcall]
                simp only [] at h
                cases hrest : deleteKeyResults E op_num id rest s0 with
                | mk r1 s2 =>
                    rw [hrest] at h
                    cases r1 with
                    | error e1 =>
                        cases h
                        exact (ih (b && res) s0).2 e s1 hrest
                    | ok bs0 => cases h

/-- C9: the per-point boolean that `set_payload` (and symmetrically
`delete_payload`) reports to the fan-out primitive — computed by
`setPayloadLoop` / `deletePayloadLoop`, the loops the closures run on each
found point — is the logical AND of the per-key segment call results for
that point, for any segment implementation. -/
theorem per_point_result_is_and_of_keys {σ : Type} (E : SegmentEntry σ)
    (op_num : SeqNumberType) (id : PointIdType)
    (payload : List (PayloadKeyType × PayloadInterface))
    (keys : List PayloadKeyType) (s : σ) :
    (∀ bs s1, payloadKeyResults E op_num id payload s = (Except.ok bs, s1) →
      setPayloadLoop E op_num id payload true s =
        (Except.ok (bs.all (fun b => b)), s1)) ∧
    (∀ bs s1, deleteKeyResults E op_num id keys s = (Except.ok bs, s1) →
      deletePayloadLoop E op_num id keys true s =
        (Except.ok (bs.all (fun b => b)), s1)) := by
  constructor
  · intro bs s1 h
    have := (setPayloadLoop_and_gen E op_num id payload true s).1 bs s1 h
    simpa using this
  · intro bs s1 h
    have := (deletePayloadLoop_and_gen E op_num id keys true s).1 bs s1 h
    simpa using this

/-- Witness for C9 at a concrete input: two keys on a held point; the first
key is a genuine change, the second is reported stale by the store, so the
per-point result is `true && false = false`. -/
theorem per_point_result_is_and_of_keys_witness :
    setPayloadLoop specSegmentEntry 5 1 [("a", "x"), ("b", "y")] true
        [(1, ⟨0, [], []⟩)] =
      (Except.ok ([true, false].all (fun b => b)),
       [(1, ⟨5, [], [("a", "x")]⟩)]) :=
  (per_point_result_is_and_of_keys specSegmentEntry 5 1 [("a", "x"), ("b", "y")]
    [] [(1, ⟨0, [], []⟩)]).1 [true, false] [(1, ⟨5, [], [("a", "x")]⟩)] rfl

/-! ## Claim C5: error propagation -/

/-- A segment implementation holding nothing whose every mutating call fails
with the same segment-layer error. -/
def failingSegmentEntry : SegmentEntry Unit where
  has_point _ _ := false
  upsert_point _ _ _ s := (Except.error "io failure", s)
  delete_point _ _ s := (Except.error "io failure", s)
  set_payload _ _ _ _ s := (Except.error "io failure", s)
  delete_payload _ _ _ s := (Except.error "io failure", s)
  clear_payload _ _ s := (Except.error "io failure", s)
  wipe_payload _ s := (Except.error "io failure", s)

/-- A segment implementation claiming to hold every id whose every mutating
call fails with the same segment-layer error. -/
def failingHeldEntry : SegmentEntry Unit where
  has_point _ _ := true
  upsert_point _ _ _ s := (Except.error "io failure", s)
  delete_point _ _ s := (Except.error "io failure", s)
  set_payload _ _ _ _ s := (Except.error "io failure", s)
  delete_payload _ _ _ s := (Except.error "io failure", s)
  clear_payload _ _ s := (Except.error "io failure", s)
  wipe_payload _ s := (Except.error "io failure", s)

/-- Counterexample for C5 as stated: id 1 is residual (held by no segment),
the residual insertion's segment upsert call fails, yet `upsert_points`
returns `Ok 0` — the Rust source drops the `Result` of residual upserts
(line 66), so these errors do not propagate. -/
theorem residual_upsert_error_swallowed :
    (failingSegmentEntry.upsert_point 7 1 [2] ()).1 = Except.error "io failure" ∧
    upsert_points failingSegmentEntry 0 7 [1] [[2]] [()] = (Except.ok 0, [()]) :=
  ⟨rfl, rfl⟩

/-- C5 (amended): errors reported by `apply_points`/`apply_segments` — the
fan-out over owning segments — propagate unchanged through every update
operation, aborting it; but `upsert_points` succeeds with the fan-out count
whenever the fan-out succeeded and a segment exists, regardless of what the
residual insertion calls return (their results are discarded). -/
theorem errors_propagate_through_fanout {σ : Type} (E : SegmentEntry σ)
    (choice : Nat) (op_num : SeqNumberType) (ids points : List PointIdType)
    (vectors : List VectorType)
    (payload : List (PayloadKeyType × PayloadInterface))
    (keys : List PayloadKeyType) (segs : List σ) (e : UpdateError) :
    (∀ segs1 u, apply_points E op_num ids
        (upsertClosure E op_num (pointsMap ids vectors)) segs [] =
          (Except.error e, segs1, u) →
      upsert_points E choice op_num ids vectors segs = (Except.error e, segs1)) ∧
    (∀ segs1 u, apply_points E op_num ids (deleteClosure E op_num) segs () =
          (Except.error e, segs1, u) →
      delete_points E op_num ids segs = (Except.error e, segs1)) ∧
    (∀ segs1 u, apply_points E op_num points
        (setPayloadClosure E op_num payload) segs [] = (Except.error e, segs1, u) →
      set_payload E op_num payload points segs = (Except.error e, segs1)) ∧
    (∀ segs1 u, apply_points E op_num points
        (deletePayloadClosure E op_num keys) segs [] = (Except.error e, segs1, u) →
      delete_payload E op_num points keys segs = (Except.error e, segs1)) ∧
    (∀ segs1 u, apply_points E op_num points
        (clearPayloadClosure E op_num) segs [] = (Except.error e, segs1, u) →
      clear_payload E op_num points segs = (Except.error e, segs1)) ∧
    (∀ segs1, apply_segments (E.wipe_payload op_num) segs = (Except.error e, segs1) →
      wipe_payload E op_num segs = (Except.error e, segs1)) ∧
    (∀ res segs1 u i, apply_points E op_num ids
        (upsertClosure E op_num (pointsMap ids vectors)) segs [] =
          (Except.ok res, segs1, u) →
      random_segment choice segs1 = some i →
      upsert_points E choice op_num ids vectors segs =
        (Except.ok res, modifyAt
          (residualUpserts E op_num (pointsMap ids vectors)
            (ids.filter (fun x => !u.contains x))) segs1 i)) := by
  refine ⟨?_, ?_, ?_, ?_, ?_, ?_, ?_⟩
  · intro segs1 u h
    simp only [upsert_points]
    rw [h]
  · intro segs1 u h
    simp only [delete_points]
    rw [h]
  · intro segs1 u h
    simp only [set_payload]
    rw [h]
  · intro segs1 u h
    simp only [delete_payload]
    rw [h]
  · intro segs1 u h
    simp only [clear_payload]
    rw [h]
  · intro segs1 h
    simp only [wipe_payload]
    exact h
  · intro res segs1 u i h hr
    simp only [upsert_points]
    rw [h]
    simp only []
    rw [hr]

/-- Witness for C5 (amended) at a concrete input: a held id whose segment
delete call fails aborts `delete_points` with the same error. -/
theorem errors_propagate_through_fanout_witness :
    delete_points failingHeldEntry 3 [1] [()] =
      (Except.error (UpdateError.ServiceError "io failure"), [()]) :=
  (errors_propagate_through_fanout failingHeldEntry 0 3 [1] [1] [] [] []
    [()] (UpdateError.ServiceError "io failure")).2.1 [()] () rfl

/-! ## Claim C2: split-insert correctness of `upsert_points` -/

theorem upsertFs_lookup_self (op_num : SeqNumberType)
    (pm : PointIdType → VectorType) (id : PointIdType) (s : Segment) :
    segLookup id (upsertFs op_num pm id s) =
      match segLookup id s with
      | none => some ⟨op_num, pm id, []⟩
      | some r =>
          if op_num ≤ r.version then some r
          else some ⟨op_num, pm id, r.payload⟩ := by
  unfold upsertFs Segment.upsertPoint
  cases hl : segLookup id s with
  | none => simp [segLookup_segInsert_self]
  | some r =>
      by_cases hv : op_num ≤ r.version
      · simp [hv, hl]
      · simp [hv, segLookup_segInsert_self]

/-- C2: with a fresh sequence number, duplicate-free ids and the membership
invariant, `upsert_points` (i) returns the number of requested ids that
existed beforehand, (ii) updates every held id in place in its owning
segment (new vector, payload kept — residual insertions not counted), and
(iii) inserts every id held by no segment into the single segment chosen by
`random_segment`. -/
theorem upsert_points_split (choice : Nat) (op_num : SeqNumberType)
    (ids : List PointIdType) (vectors : List VectorType) (segs : List Segment)
    (hnodup : ids.Nodup) (hU : UniqueHold segs) (hFresh : FreshFor op_num segs)
    (hne : segs ≠ []) :
    (upsert_points specSegmentEntry choice op_num ids vectors segs).1 =
        Except.ok ((ids.filter (fun id => heldByAny segs id)).length) ∧
    (∀ j, j < segs.length → ∀ id ∈ ids, ∀ r : Record,
        segLookup id (segs.getD j []) = some r →
        segLookup id
            ((upsert_points specSegmentEntry choice op_num ids vectors segs).2.getD j []) =
          some ⟨op_num, pointsMap ids vectors id, r.payload⟩) ∧
    (∀ id ∈ ids, heldByAny segs id = false →
        segLookup id
            ((upsert_points specSegmentEntry choice op_num ids vectors
              segs).2.getD (choice % segs.length) []) =
          some ⟨op_num, pointsMap ids vectors id, []⟩) := by
  have hconc := upsert_points_concrete choice op_num ids vectors segs hne
  have hpos : 0 < segs.length := List.length_pos.mpr hne
  have hilt : choice % segs.length < segs.length := Nat.mod_lt _ hpos
  have hsnd : (upsert_points specSegmentEntry choice op_num ids vectors segs).2 =
      modifyAt
        (residualUpserts specSegmentEntry op_num (pointsMap ids vectors)
          (newPoints ids segs))
        (fanned (upsertFs op_num (pointsMap ids vectors)) ids segs)
        (choice % segs.length) := congrArg Prod.snd hconc
  have hfanlen : (fanned (upsertFs op_num (pointsMap ids vectors)) ids segs).length
      = segs.length := List.length_map _ _
  have hfanget : ∀ j, j < segs.length →
      (fanned (upsertFs op_num (pointsMap ids vectors)) ids segs).getD j [] =
        segFoldState (upsertFs op_num (pointsMap ids vectors))
          (heldIds specSegmentEntry ids (segs.getD j [])) (segs.getD j []) := by
    intro j hj
    unfold fanned
    exact getD_map _ [] [] segs j hj
  -- effect of the fan-out on a held id's own record under freshness
  have hfold : ∀ j, j < segs.length → ∀ id ∈ ids, ∀ r : Record,
      segLookup id (segs.getD j []) = some r →
      segLookup id (segFoldState (upsertFs op_num (pointsMap ids vectors))
          (heldIds specSegmentEntry ids (segs.getD j [])) (segs.getD j [])) =
        some ⟨op_num, pointsMap ids vectors id, r.payload⟩ := by
    intro j hj id hid r hr
    have hmem : id ∈ heldIds specSegmentEntry ids (segs.getD j []) := by
      rw [mem_heldIds]
      refine ⟨hid, ?_⟩
      rw [specE_has_point]
      unfold segHolds
      rw [hr]
      rfl
    rw [segFoldState_result (upsertFs op_num (pointsMap ids vectors))
      (fun id ro =>
        match ro with
        | none => some ⟨op_num, pointsMap ids vectors id, []⟩
        | some r =>
            if op_num ≤ r.version then some r
            else some ⟨op_num, pointsMap ids vectors id, r.payload⟩)
      (fun i i' s h => upsertPoint_lookup_ne op_num i i' _ s h)
      (fun i s => upsertFs_lookup_self op_num (pointsMap ids vectors) i s)
      (heldIds specSegmentEntry ids (segs.getD j [])) (hnodup.filter _)
      (segs.getD j []) id hmem]
    rw [hr]
    have hv : r.version < op_num :=
      hFresh (segs.getD j []) (getD_mem [] segs j hj) (id, r)
        (segLookup_mem id r _ hr)
    simp [Nat.not_le_of_lt hv]
  refine ⟨?_, ?_, ?_⟩
  · rw [hconc]
    unfold fanCountTotal
    rw [fanCount_eq_found op_num _ _ ids segs hnodup hU hFresh]
    · intro id s hQ
      rcases hQ with ⟨r, hr, hv⟩
      unfold upsertFb Segment.upsertPoint
      rw [hr]
      simp [Nat.not_le_of_lt hv]
    · intro id id' s hne'
      exact upsertPoint_lookup_ne op_num id id' _ s hne'
  · intro j hj id hid r hr
    have hheld : heldByAny segs id = true := by
      apply List.any_eq_true.mpr
      refine ⟨segs.getD j [], getD_mem [] segs j hj, ?_⟩
      unfold segHolds
      rw [hr]
      rfl
    have hnotnew : id ∉ newPoints ids segs := by
      intro hc
      have := (newPoints_mem ids segs id).mp hc
      rw [hheld] at this
      cases this.2
    rw [hsnd]
    by_cases hji : j = choice % segs.length
    · rw [hji] at hr ⊢
      rw [modifyAt_getD _ [] _ _ (by rw [hfanlen]; exact hilt)]
      rw [hfanget _ hilt, residualUpserts_eq_core,
        residualCore_lookup_notmem op_num _ _ _ id hnotnew]
      exact hfold _ hilt id hid r hr
    · rw [modifyAt_getD_ne _ [] _ _ j (fun hc => hji hc.symm)]
      rw [hfanget j hj]
      exact hfold j hj id hid r hr
  · intro id hid hnot
    have hnew : id ∈ newPoints ids segs := (newPoints_mem ids segs id).mpr ⟨hid, hnot⟩
    rw [hsnd]
    rw [modifyAt_getD _ [] _ _ (by rw [hfanlen]; exact hilt)]
    rw [hfanget _ hilt, residualUpserts_eq_core]
    apply residualCore_lookup_new op_num (pointsMap ids vectors)
      (newPoints ids segs) (hnodup.filter _) _ id hnew
    rw [upsertFan_holds]
    cases hb : segHolds (segs.getD (choice % segs.length) []) id with
    | false => rfl
    | true =>
        have hc : heldByAny segs id = true :=
          List.any_eq_true.mpr
            ⟨segs.getD (choice % segs.length) [], getD_mem [] segs _ hilt, hb⟩
        rw [hnot] at hc
        cases hc

/-- Witness for C2 at a concrete input: id 1 is held (updated in place,
payload kept, count 1), id 2 is new (inserted into the chosen segment). -/
theorem upsert_points_split_witness :
    (upsert_points specSegmentEntry 0 7 [1, 2] [[9], [8]]
        [[(1, ⟨0, [5], [("k", "v")]⟩)]]).1 = Except.ok 1 ∧
    segLookup 1 ((upsert_points specSegmentEntry 0 7 [1, 2] [[9], [8]]
        [[(1, ⟨0, [5], [("k", "v")]⟩)]]).2.getD 0 []) =
      some ⟨7, [9], [("k", "v")]⟩ ∧
    segLookup 2 ((upsert_points specSegmentEntry 0 7 [1, 2] [[9], [8]]
        [[(1, ⟨0, [5], [("k", "v")]⟩)]]).2.getD (0 % 1) []) =
      some ⟨7, [8], []⟩ := by
  have h := upsert_points_split 0 7 [1, 2] [[9], [8]]
    [[(1, ⟨0, [5], [("k", "v")]⟩)]] (by decide)
    (fun id => le_trans (List.countP_le_length _) (by simp))
    (by unfold FreshFor; decide) (List.cons_ne_nil _ _)
  exact ⟨h.1, h.2.1 0 (by decide) 1 (by decide) ⟨0, [5], [("k", "v")]⟩ rfl,
    h.2.2 2 (by decide) rfl⟩

/-! ## Claim C7: idempotent replay -/

theorem sum_map_zero {α : Type} :
    ∀ l : List α, (l.map (fun _ => (0 : Nat))).sum = 0 := by
  intro l
  induction l with
  | nil => rfl
  | cons x rest ih => simp [ih]

theorem any_congr {α : Type} (p q : α → Bool) :
    ∀ l : List α, (∀ x ∈ l, p x = q x) → l.any p = l.any q := by
  intro l
  induction l with
  | nil => intro _; rfl
  | cons x rest ih =>
      intro h
      simp only [List.any_cons, h x (List.mem_cons_self x rest),
        ih (fun y hy => h y (List.mem_cons_of_mem _ hy))]

theorem forall_mem_of_getD {σ : Type} (d : σ) (P : σ → Prop) (l : List σ)
    (h : ∀ j, j < l.length → P (l.getD j d)) : ∀ s ∈ l, P s := by
  intro s hs
  rcases List.mem_iff_getElem.mp hs with ⟨j, hj, hget⟩
  have hP := h j hj
  rw [List.getD_eq_getElem l d hj, hget] at hP
  exact hP

/-- If every requested id is stale for every segment, the whole fan-out is a
no-op reporting zero changes. -/
theorem fanned_stale_identity (op_num : SeqNumberType)
    (Fb : PointIdType → Segment → Bool) (Fs : PointIdType → Segment → Segment)
    (ids : List PointIdType) (segs : List Segment)
    (hnoop : ∀ id s, segHolds s id = true → staleFor op_num s id →
      Fs id s = s ∧ Fb id s = false)
    (hstale : ∀ s ∈ segs, ∀ id ∈ ids, staleFor op_num s id) :
    fanned Fs ids segs = segs ∧ fanCountTotal Fb Fs ids segs = 0 := by
  have hseg : ∀ s ∈ segs,
      segFoldState Fs (heldIds specSegmentEntry ids s) s = s ∧
      segFoldCount Fb Fs (heldIds specSegmentEntry ids s) s = 0 := by
    intro s hs
    apply segFoldState_stale_id op_num Fb Fs hnoop
    intro id hm
    rcases (mem_heldIds specSegmentEntry ids s id).mp hm with ⟨hin, hh⟩
    rw [specE_has_point] at hh
    exact ⟨hh, hstale s hs id hin⟩
  constructor
  · unfold fanned
    rw [List.map_congr_left (fun s hs => (hseg s hs).1)]
    exact List.map_id segs
  · unfold fanCountTotal
    rw [List.map_congr_left (fun s hs => (hseg s hs).2)]
    exact sum_map_zero segs

/-- If a requested id is not held by a segment, the fan-out leaves its
(absent) record unchanged there, so staleness is vacuous; if it is held, the
fold stamps or keeps a version at least the operation's.  Packaged per
operation below. -/
theorem fold_staleFor_of_mem_or_absent (op_num : SeqNumberType)
    (Fs : PointIdType → Segment → Segment) (ids : List PointIdType) (s : Segment)
    (hypSelf : ∀ id s', staleFor op_num (Fs id s') id)
    (hypPres : ∀ id s' x, staleFor op_num s' x → staleFor op_num (Fs id s') x)
    (hypNe : ∀ id id' s', id' ≠ id → segLookup id' (Fs id s') = segLookup id' s') :
    ∀ id ∈ ids,
      staleFor op_num (segFoldState Fs (heldIds specSegmentEntry ids s) s) id := by
  intro id hid
  by_cases hm : id ∈ heldIds specSegmentEntry ids s
  · exact segFoldState_staleFor_mem op_num Fs hypSelf hypPres _ s id hm
  · intro r hr
    rw [segFoldState_lookup_ne Fs hypNe _ s id hm] at hr
    have hh : segHolds s id = false := by
      cases hb : segHolds s id with
      | false => rfl
      | true =>
          exact absurd ((mem_heldIds specSegmentEntry ids s id).mpr ⟨hid, hb⟩) hm
    unfold segHolds at hh
    rw [hr] at hh
    cases hh

theorem upsert_stale_noop (op_num : SeqNumberType) (pm : PointIdType → VectorType)
    (id : PointIdType) (s : Segment) (hh : segHolds s id = true)
    (hst : staleFor op_num s id) :
    upsertFs op_num pm id s = s ∧ upsertFb op_num pm id s = false := by
  unfold upsertFs upsertFb
  rw [upsertPoint_stale op_num id (pm id) s hh hst]
  exact ⟨rfl, rfl⟩

theorem delete_stale_noop (op_num : SeqNumberType) (id : PointIdType)
    (s : Segment) (hh : segHolds s id = true) (hst : staleFor op_num s id) :
    deleteFs op_num id s = s ∧ deleteFb op_num id s = false := by
  unfold deleteFs deleteFb
  rw [deletePoint_stale op_num id s hh hst]
  exact ⟨rfl, rfl⟩

theorem setP_stale_noop (op_num : SeqNumberType)
    (payload : List (PayloadKeyType × PayloadInterface)) (hpl : payload ≠ [])
    (id : PointIdType) (s : Segment) (hst : staleFor op_num s id) :
    setPFs op_num payload id s = s ∧ setPFb op_num payload id s = false := by
  unfold setPFs setPFb
  rw [setPayloadLoopCore_stale op_num id
    (fun key value s' hst' => setPayloadKey_stale op_num id key value s' hst')
    payload true s hst]
  cases payload with
  | nil => exact absurd rfl hpl
  | cons kp rest => exact ⟨rfl, rfl⟩

theorem delP_stale_noop (op_num : SeqNumberType) (keys : List PayloadKeyType)
    (hk : keys ≠ []) (id : PointIdType) (s : Segment)
    (hst : staleFor op_num s id) :
    delPFs op_num keys id s = s ∧ delPFb op_num keys id s = false := by
  unfold delPFs delPFb
  rw [deletePayloadLoopCore_stale op_num id keys true s hst]
  cases keys with
  | nil => exact absurd rfl hk
  | cons key rest => exact ⟨rfl, rfl⟩

theorem clear_stale_noop (op_num : SeqNumberType) (id : PointIdType)
    (s : Segment) (hst : staleFor op_num s id) :
    clearFs op_num id s = s ∧ clearFb op_num id s = false := by
  unfold clearFs clearFb
  rw [clearPayloadPoint_stale op_num id s hst]
  exact ⟨rfl, rfl⟩

/-- Replaying `delete_points` with the same sequence number is a no-op
reporting zero deletions. -/
theorem delete_points_replay (op_num : SeqNumberType) (ids : List PointIdType)
    (segs : List Segment) (c : Nat) (segs' : List Segment)
    (h : delete_points specSegmentEntry op_num ids segs = (Except.ok c, segs')) :
    delete_points specSegmentEntry op_num ids segs' = (Except.ok 0, segs') := by
  rw [delete_points_concrete] at h
  have hsegs' : segs' = fanned (deleteFs op_num) ids segs :=
    ((Prod.mk.injEq _ _ _ _).mp h).2.symm
  have hstale : ∀ s ∈ segs', ∀ id ∈ ids, staleFor op_num s id := by
    rw [hsegs']
    unfold fanned
    intro s' hs'
    rcases List.mem_map.mp hs' with ⟨s, _, hmap⟩
    rw [← hmap]
    exact fold_staleFor_of_mem_or_absent op_num (deleteFs op_num) ids s
      (fun i s0 => deletePoint_staleFor op_num i s0 i (Or.inl rfl))
      (fun i s0 x hx => deletePoint_staleFor op_num i s0 x (Or.inr hx))
      (fun i i' s0 hne => deletePoint_lookup_ne op_num i i' s0 hne)
  have hid := fanned_stale_identity op_num (deleteFb op_num) (deleteFs op_num)
    ids segs' (fun i s0 => delete_stale_noop op_num i s0) hstale
  rw [delete_points_concrete, hid.1, hid.2]

theorem mem_modifyAt {σ : Type} (f : σ → σ) :
    ∀ (l : List σ) (i : Nat) (y : σ), y ∈ modifyAt f l i →
      y ∈ l ∨ ∃ z ∈ l, y = f z := by
  intro l
  induction l with
  | nil => intro i y hy; cases hy
  | cons s rest ih =>
      intro i y hy
      cases i with
      | zero =>
          rcases List.mem_cons.mp hy with hy | hy
          · exact Or.inr ⟨s, List.mem_cons_self s rest, hy⟩
          · exact Or.inl (List.mem_cons_of_mem _ hy)
      | succ j =>
          rcases List.mem_cons.mp hy with hy | hy
          · exact Or.inl (hy ▸ List.mem_cons_self s rest)
          · rcases ih j y hy with hy | ⟨z, hz, hzeq⟩
            · exact Or.inl (List.mem_cons_of_mem _ hy)
            · exact Or.inr ⟨z, List.mem_cons_of_mem _ hz, hzeq⟩

theorem fanned_getD (Fs : PointIdType → Segment → Segment)
    (ids : List PointIdType) (segs : List Segment) (j : Nat)
    (hj : j < segs.length) :
    (fanned Fs ids segs).getD j [] =
      segFoldState Fs (heldIds specSegmentEntry ids (segs.getD j []))
        (segs.getD j []) := by
  unfold fanned
  exact getD_map _ [] [] segs j hj

/-- Staleness of every requested id after the full fan-out of an upsert. -/
theorem upsertFold_staleFor (op_num : SeqNumberType)
    (pm : PointIdType → VectorType) (ids : List PointIdType) (s : Segment) :
    ∀ id ∈ ids,
      staleFor op_num
        (segFoldState (upsertFs op_num pm) (heldIds specSegmentEntry ids s) s) id :=
  fold_staleFor_of_mem_or_absent op_num (upsertFs op_num pm) ids s
    (fun i s0 => upsertPoint_staleFor op_num i (pm i) s0 i (Or.inl rfl))
    (fun i s0 x hx => upsertPoint_staleFor op_num i (pm i) s0 x (Or.inr hx))
    (fun i i' s0 hne => upsertPoint_lookup_ne op_num i i' (pm i) s0 hne)

/-- After a successful upsert, every requested id is held somewhere. -/
theorem upsert_post_held (choice : Nat) (op_num : SeqNumberType)
    (pm : PointIdType → VectorType) (ids : List PointIdType)
    (segs : List Segment) (hne : segs ≠ []) :
    ∀ id ∈ ids, heldByAny
      (modifyAt (residualUpserts specSegmentEntry op_num pm (newPoints ids segs))
        (fanned (upsertFs op_num pm) ids segs) (choice % segs.length)) id = true := by
  have hpos : 0 < segs.length := List.length_pos.mpr hne
  have hilt : choice % segs.length < segs.length := Nat.mod_lt _ hpos
  have hfanlen : (fanned (upsertFs op_num pm) ids segs).length = segs.length :=
    List.length_map _ _
  have hlen' : (modifyAt
      (residualUpserts specSegmentEntry op_num pm (newPoints ids segs))
      (fanned (upsertFs op_num pm) ids segs) (choice % segs.length)).length
        = segs.length := by
    rw [modifyAt_length]
    exact hfanlen
  intro id hid
  apply List.any_eq_true.mpr
  by_cases hb : heldByAny segs id = true
  · rcases List.any_eq_true.mp hb with ⟨s, hs, hh⟩
    rcases List.mem_iff_getElem.mp hs with ⟨j, hj, hget⟩
    have hgetD : segs.getD j [] = s := by
      rw [List.getD_eq_getElem segs [] hj]
      exact hget
    refine ⟨(modifyAt (residualUpserts specSegmentEntry op_num pm (newPoints ids segs))
        (fanned (upsertFs op_num pm) ids segs) (choice % segs.length)).getD j [],
      getD_mem [] _ j (by rw [hlen']; exact hj), ?_⟩
    by_cases hji : j = choice % segs.length
    · rw [hji, modifyAt_getD _ [] _ _ (by rw [hfanlen]; exact hilt)]
      rw [fanned_getD _ ids segs _ hilt, residualUpserts_eq_core,
        residualCore_holds, upsertFan_holds]
      rw [← hji, hgetD, hh]
      rfl
    · rw [modifyAt_getD_ne _ [] _ _ j (fun hc => hji hc.symm)]
      rw [fanned_getD _ ids segs j hj, upsertFan_holds, hgetD]
      exact hh
  · have hnew : id ∈ newPoints ids segs := by
      apply (newPoints_mem ids segs id).mpr
      refine ⟨hid, ?_⟩
      cases hbv : heldByAny segs id with
      | false => rfl
      | true => exact absurd hbv hb
    refine ⟨(modifyAt (residualUpserts specSegmentEntry op_num pm (newPoints ids segs))
        (fanned (upsertFs op_num pm) ids segs) (choice % segs.length)).getD
          (choice % segs.length) [],
      getD_mem [] _ _ (by rw [hlen']; exact hilt), ?_⟩
    rw [modifyAt_getD _ [] _ _ (by rw [hfanlen]; exact hilt)]
    rw [fanned_getD _ ids segs _ hilt, residualUpserts_eq_core, residualCore_holds]
    simp [hnew]

/-- Replaying `upsert_points` with the same sequence number (any RNG draw)
is a no-op reporting zero updates. -/
theorem upsert_points_replay (choice choice2 : Nat) (op_num : SeqNumberType)
    (ids : List PointIdType) (vectors : List VectorType) (segs : List Segment)
    (c : Nat) (segs' : List Segment)
    (h : upsert_points specSegmentEntry choice op_num ids vectors segs =
      (Except.ok c, segs')) :
    upsert_points specSegmentEntry choice2 op_num ids vectors segs' =
      (Except.ok 0, segs') := by
  have hne : segs ≠ [] := by
    intro hc
    rw [hc, upsert_points_nil] at h
    exact Except.noConfusion ((Prod.mk.injEq _ _ _ _).mp h).1
  rw [upsert_points_concrete choice op_num ids vectors segs hne] at h
  obtain ⟨hfst, hsnd⟩ := (Prod.mk.injEq _ _ _ _).mp h
  have hlen' : segs'.length = segs.length := by
    rw [← hsnd, modifyAt_length]
    exact List.length_map _ _
  have hne' : segs' ≠ [] := by
    intro hc
    rw [hc] at hlen'
    simp at hlen'
    have := List.length_pos.mpr hne
    omega
  have hstale : ∀ s ∈ segs', ∀ id ∈ ids, staleFor op_num s id := by
    rw [← hsnd]
    intro s hs id hid
    rcases mem_modifyAt _ _ _ _ hs with hs' | ⟨z, hz, hzeq⟩
    · rcases List.mem_map.mp hs' with ⟨s0, _, hmap⟩
      rw [← hmap]
      exact upsertFold_staleFor op_num (pointsMap ids vectors) ids s0 id hid
    · subst hzeq
      rcases List.mem_map.mp hz with ⟨s0, _, hmap⟩
      rw [← hmap, residualUpserts_eq_core]
      apply residualCore_staleFor_pres
      exact upsertFold_staleFor op_num (pointsMap ids vectors) ids s0 id hid
  have hheld : ∀ id ∈ ids, heldByAny segs' id = true := by
    rw [← hsnd]
    exact upsert_post_held choice op_num (pointsMap ids vectors) ids segs hne
  have hident := fanned_stale_identity op_num
    (upsertFb op_num (pointsMap ids vectors))
    (upsertFs op_num (pointsMap ids vectors)) ids segs'
    (fun i s0 => upsert_stale_noop op_num (pointsMap ids vectors) i s0) hstale
  have hnew2 : newPoints ids segs' = [] := by
    apply List.filter_eq_nil_iff.mpr
    intro id hid
    rw [fanFound_contains ids segs' id hid, hheld id hid]
    decide
  rw [upsert_points_concrete choice2 op_num ids vectors segs' hne']
  rw [hident.2, hnew2, hident.1,
    modifyAt_id (residualUpserts specSegmentEntry op_num (pointsMap ids vectors) [])
      (fun s => rfl)]

/-- Staleness of every requested id after a payload fan-out. -/
theorem payload_fanned_staleFor (op_num : SeqNumberType)
    (Fs : PointIdType → Segment → Segment) (ids : List PointIdType)
    (segs : List Segment)
    (hypSelf : ∀ id s', staleFor op_num (Fs id s') id)
    (hypPres : ∀ id s' x, staleFor op_num s' x → staleFor op_num (Fs id s') x)
    (hypNe : ∀ id id' s', id' ≠ id → segLookup id' (Fs id s') = segLookup id' s') :
    ∀ s ∈ fanned Fs ids segs, ∀ id ∈ ids, staleFor op_num s id := by
  intro s hs id hid
  rcases List.mem_map.mp hs with ⟨s0, _, hmap⟩
  rw [← hmap]
  exact fold_staleFor_of_mem_or_absent op_num Fs ids s0 hypSelf hypPres hypNe id hid

/-- A holds-preserving fan-out preserves which ids are held somewhere. -/
theorem payload_fanned_heldByAny (Fs : PointIdType → Segment → Segment)
    (hFsHolds : ∀ id s x, segHolds (Fs id s) x = segHolds s x)
    (ids : List PointIdType) (segs : List Segment) (x : PointIdType) :
    heldByAny (fanned Fs ids segs) x = heldByAny segs x := by
  unfold heldByAny fanned
  rw [List.any_map]
  apply any_congr
  intro s _
  simp only [Function.comp]
  rw [segFoldState_holds_unc Fs hFsHolds]

/-- Replaying `set_payload` (nonempty payload map) with the same sequence
number is a no-op reporting zero changes. -/
theorem set_payload_replay (op_num : SeqNumberType)
    (payload : List (PayloadKeyType × PayloadInterface))
    (points : List PointIdType) (segs : List Segment) (c : Nat)
    (segs' : List Segment) (hpl : payload ≠ [])
    (h : set_payload specSegmentEntry op_num payload points segs =
      (Except.ok c, segs')) :
    set_payload specSegmentEntry op_num payload points segs' =
      (Except.ok 0, segs') := by
  rw [set_payload_concrete, check_unprocessed_eq] at h
  cases hfind : points.find? (fun p => !heldByAny segs p) with
  | some m =>
      rw [hfind] at h
      exact Except.noConfusion ((Prod.mk.injEq _ _ _ _).mp h).1
  | none =>
      rw [hfind] at h
      obtain ⟨hfst, hsnd⟩ := (Prod.mk.injEq _ _ _ _).mp h
      have hstale : ∀ s ∈ segs', ∀ id ∈ points, staleFor op_num s id := by
        rw [← hsnd]
        exact payload_fanned_staleFor op_num (setPFs op_num payload) points segs
          (fun id s' => setPayloadLoopCore_staleFor_self op_num id payload true s' hpl)
          (fun id s' x hx => setPayloadLoopCore_staleFor op_num id payload true s' x hx)
          (fun id id' s' hne => setPayloadLoopCore_lookup_ne op_num id id' hne payload true s')
      have hheldc : ∀ x, heldByAny segs' x = heldByAny segs x := by
        intro x
        rw [← hsnd]
        exact payload_fanned_heldByAny (setPFs op_num payload)
          (fun i s x' => setPayloadLoopCore_holds op_num i payload true s x')
          points segs x
      have hfind2 : points.find? (fun p => !heldByAny segs' p) = none := by
        rw [find?_congr _ (fun p => !heldByAny segs p) points
          (fun p _ => by rw [hheldc p])]
        exact hfind
      have hident := fanned_stale_identity op_num (setPFb op_num payload)
        (setPFs op_num payload) points segs'
        (fun i s0 _ hst => setP_stale_noop op_num payload hpl i s0 hst) hstale
      rw [set_payload_concrete, check_unprocessed_eq, hfind2, hident.1, hident.2]

/-- Replaying `delete_payload` (nonempty key list) with the same sequence
number is a no-op reporting zero changes. -/
theorem delete_payload_replay (op_num : SeqNumberType)
    (points : List PointIdType) (keys : List PayloadKeyType)
    (segs : List Segment) (c : Nat) (segs' : List Segment) (hk : keys ≠ [])
    (h : delete_payload specSegmentEntry op_num points keys segs =
      (Except.ok c, segs')) :
    delete_payload specSegmentEntry op_num points keys segs' =
      (Except.ok 0, segs') := by
  rw [delete_payload_concrete, check_unprocessed_eq] at h
  cases hfind : points.find? (fun p => !heldByAny segs p) with
  | some m =>
      rw [hfind] at h
      exact Except.noConfusion ((Prod.mk.injEq _ _ _ _).mp h).1
  | none =>
      rw [hfind] at h
      obtain ⟨hfst, hsnd⟩ := (Prod.mk.injEq _ _ _ _).mp h
      have hstale : ∀ s ∈ segs', ∀ id ∈ points, staleFor op_num s id := by
        rw [← hsnd]
        exact payload_fanned_staleFor op_num (delPFs op_num keys) points segs
          (fun id s' => deletePayloadLoopCore_staleFor_self op_num id keys true s' hk)
          (fun id s' x hx => deletePayloadLoopCore_staleFor op_num id keys true s' x hx)
          (fun id id' s' hne => deletePayloadLoopCore_lookup_ne op_num id id' hne keys true s')
      have hheldc : ∀ x, heldByAny segs' x = heldByAny segs x := by
        intro x
        rw [← hsnd]
        exact payload_fanned_heldByAny (delPFs op_num keys)
          (fun i s x' => deletePayloadLoopCore_holds op_num i keys true s x')
          points segs x
      have hfind2 : points.find? (fun p => !heldByAny segs' p) = none := by
        rw [find?_congr _ (fun p => !heldByAny segs p) points
          (fun p _ => by rw [hheldc p])]
        exact hfind
      have hident := fanned_stale_identity op_num (delPFb op_num keys)
        (delPFs op_num keys) points segs'
        (fun i s0 _ hst => delP_stale_noop op_num keys hk i s0 hst) hstale
      rw [delete_payload_concrete, check_unprocessed_eq, hfind2, hident.1, hident.2]

/-- Replaying `clear_payload` with the same sequence number is a no-op
reporting zero changes. -/
theorem clear_payload_replay (op_num : SeqNumberType)
    (points : List PointIdType) (segs : List Segment) (c : Nat)
    (segs' : List Segment)
    (h : clear_payload specSegmentEntry op_num points segs =
      (Except.ok c, segs')) :
    clear_payload specSegmentEntry op_num points segs' = (Except.ok 0, segs') := by
  rw [clear_payload_concrete, check_unprocessed_eq] at h
  cases hfind : points.find? (fun p => !heldByAny segs p) with
  | some m =>
      rw [hfind] at h
      exact Except.noConfusion ((Prod.mk.injEq _ _ _ _).mp h).1
  | none =>
      rw [hfind] at h
      obtain ⟨hfst, hsnd⟩ := (Prod.mk.injEq _ _ _ _).mp h
      have hstale : ∀ s ∈ segs', ∀ id ∈ points, staleFor op_num s id := by
        rw [← hsnd]
        exact payload_fanned_staleFor op_num (clearFs op_num) points segs
          (fun id s' => clearPayloadPoint_staleFor_self op_num id s')
          (fun id s' x hx => clearPayloadPoint_staleFor op_num id s' x hx)
          (fun id id' s' hne => clearPayloadPoint_lookup_ne op_num id id' s' hne)
      have hheldc : ∀ x, heldByAny segs' x = heldByAny segs x := by
        intro x
        rw [← hsnd]
        exact payload_fanned_heldByAny (clearFs op_num)
          (fun i s x' => clearPayloadPoint_holds op_num i s x')
          points segs x
      have hfind2 : points.find? (fun p => !heldByAny segs' p) = none := by
        rw [find?_congr _ (fun p => !heldByAny segs p) points
          (fun p _ => by rw [hheldc p])]
        exact hfind
      have hident := fanned_stale_identity op_num (clearFb op_num)
        (clearFs op_num) points segs'
        (fun i s0 _ hst => clear_stale_noop op_num i s0 hst) hstale
      rw [clear_payload_concrete, check_unprocessed_eq, hfind2, hident.1, hident.2]

theorem apply_segments_eq {σ : Type} (G : σ → (Except OperationError Bool) × σ)
    (Gb : σ → Bool) (Gs : σ → σ)
    (hG : ∀ s, G s = (Except.ok (Gb s), Gs s)) :
    ∀ segs : List σ, apply_segments G segs =
      (Except.ok ((segs.map (fun s => if Gb s then 1 else 0)).sum), segs.map Gs) := by
  intro segs
  induction segs with
  | nil => rfl
  | cons s rest ih =>
      simp only [apply_segments, hG, ih, List.map, List.sum_cons]

theorem wipe_payload_concrete (op_num : SeqNumberType) (segs : List Segment) :
    wipe_payload specSegmentEntry op_num segs =
      (Except.ok ((segs.map
          (fun s => if (Segment.wipePayloadAll op_num s).1 then 1 else 0)).sum),
       segs.map (fun s => (Segment.wipePayloadAll op_num s).2)) := by
  unfold wipe_payload
  exact apply_segments_eq _ (fun s => (Segment.wipePayloadAll op_num s).1)
    (fun s => (Segment.wipePayloadAll op_num s).2) (fun s => rfl) segs

theorem wipePayloadAll_post (op_num : SeqNumberType) (s : Segment) :
    ∀ p ∈ (Segment.wipePayloadAll op_num s).2, op_num ≤ (Prod.snd p).version := by
  intro p hp
  unfold Segment.wipePayloadAll at hp
  rcases List.mem_map.mp hp with ⟨q, _, hmap⟩
  by_cases hv : (Prod.snd q).version < op_num
  · rw [if_pos hv] at hmap
    rw [← hmap]
  · rw [if_neg hv] at hmap
    rw [← hmap]
    exact Nat.le_of_not_lt hv

theorem wipePayloadAll_stale (op_num : SeqNumberType) (s : Segment)
    (h : ∀ p ∈ s, op_num ≤ (Prod.snd p).version) :
    Segment.wipePayloadAll op_num s = (false, s) := by
  unfold Segment.wipePayloadAll
  have h1 : s.any (fun p => decide ((Prod.snd p).version < op_num)) = false := by
    rw [List.any_eq_false]
    intro p hp
    simp only [decide_eq_true_eq]
    exact Nat.not_lt.mpr (h p hp)
  have h2 : s.map (fun p =>
      if (Prod.snd p).version < op_num then (p.1, ⟨op_num, (Prod.snd p).vector, []⟩)
      else p) = s := by
    calc s.map (fun p =>
        if (Prod.snd p).version < op_num then (p.1, ⟨op_num, (Prod.snd p).vector, []⟩)
        else p)
        = s.map id := List.map_congr_left
          (fun p hp => by rw [if_neg (Nat.not_lt.mpr (h p hp))]; rfl)
      _ = s := List.map_id s
  rw [h1, h2]

/-- Replaying `wipe_payload` with the same sequence number is a no-op
reporting zero changes. -/
theorem wipe_payload_replay (op_num : SeqNumberType) (segs : List Segment)
    (c : Nat) (segs' : List Segment)
    (h : wipe_payload specSegmentEntry op_num segs = (Except.ok c, segs')) :
    wipe_payload specSegmentEntry op_num segs' = (Except.ok 0, segs') := by
  rw [wipe_payload_concrete] at h
  obtain ⟨hfst, hsnd⟩ := (Prod.mk.injEq _ _ _ _).mp h
  have hpost : ∀ s ∈ segs', ∀ p ∈ s, op_num ≤ (Prod.snd p).version := by
    rw [← hsnd]
    intro s hs
    rcases List.mem_map.mp hs with ⟨s0, _, hmap⟩
    rw [← hmap]
    exact wipePayloadAll_post op_num s0
  have hb : ∀ s ∈ segs', Segment.wipePayloadAll op_num s = (false, s) :=
    fun s hs => wipePayloadAll_stale op_num s (hpost s hs)
  rw [wipe_payload_concrete]
  have h1 : segs'.map (fun s => if (Segment.wipePayloadAll op_num s).1 then 1 else 0)
      = segs'.map (fun _ => (0 : Nat)) :=
    List.map_congr_left (fun s hs => by rw [hb s hs]; rfl)
  have h2 : segs'.map (fun s => (Segment.wipePayloadAll op_num s).2)
      = segs'.map id :=
    List.map_congr_left (fun s hs => by rw [hb s hs]; rfl)
  rw [h1, sum_map_zero, h2, List.map_id]

/-- An operation whose replay reports fresh AND-combined results: a
`SetPayload` with an empty payload map or a `DeletePayload` with an empty
key list vacuously reports `true` for every found point on every
application, so those two degenerate shapes are excluded. -/
def NonDegenerate : CollectionUpdateOperations → Prop
  | CollectionUpdateOperations.PayloadOperation (PayloadOps.SetPayload payload _) =>
      payload ≠ []
  | CollectionUpdateOperations.PayloadOperation (PayloadOps.DeletePayload keys _) =>
      keys ≠ []
  | _ => True

/-- C7 (amended): for every non-degenerate operation, if applying
`(op_num, operation)` succeeds, applying the same pair again (any RNG draw)
leaves the state unchanged and returns a count of zero new changes.  The
segment store ignores sequence numbers it has already applied, as the spec
requires of segments. -/
theorem update_replay_idempotent (choice choice2 : Nat)
    (op_num : SeqNumberType) (operation : CollectionUpdateOperations)
    (segs segs' : List Segment) (c : Nat) (hND : NonDegenerate operation)
    (h : update specSegmentEntry choice op_num operation segs =
      (Except.ok c, segs')) :
    update specSegmentEntry choice2 op_num operation segs' =
      (Except.ok 0, segs') := by
  cases operation with
  | PointOperation pop =>
      cases pop with
      | UpsertPoints ids vectors =>
          exact upsert_points_replay choice choice2 op_num ids vectors segs c segs' h
      | DeletePoints ids =>
          exact delete_points_replay op_num ids segs c segs' h
  | PayloadOperation pls =>
      cases pls with
      | SetPayload payload points =>
          exact set_payload_replay op_num payload points segs c segs' hND h
      | DeletePayload keys points =>
          exact delete_payload_replay op_num points keys segs c segs' hND h
      | ClearPayload points =>
          exact clear_payload_replay op_num points segs c segs' h
      | WipePayload =>
          exact wipe_payload_replay op_num segs c segs' h

/-- Counterexample for C7 as stated: a `SetPayload` whose payload map is
empty leaves the state unchanged but reports `true` for each found point on
every application (the AND over zero keys), so the second application again
returns count 1, not a count reflecting zero new changes — even though the
segment store itself ignores the already-applied sequence number. -/
theorem replay_counts_again_for_empty_payload :
    update specSegmentEntry 0 5
        (CollectionUpdateOperations.PayloadOperation
          (PayloadOps.SetPayload [] [1])) [[(1, ⟨0, [], []⟩)]] =
      (Except.ok 1, [[(1, ⟨0, [], []⟩)]]) ∧
    (update specSegmentEntry 0 5
        (CollectionUpdateOperations.PayloadOperation
          (PayloadOps.SetPayload [] [1]))
        ((update specSegmentEntry 0 5
          (CollectionUpdateOperations.PayloadOperation
            (PayloadOps.SetPayload [] [1])) [[(1, ⟨0, [], []⟩)]]).2)).1 =
      Except.ok 1 :=
  ⟨rfl, rfl⟩

/-- Witness for C7 (amended) at a concrete input: replaying a successful
single-key `SetPayload` returns zero and leaves the state unchanged. -/
theorem update_replay_idempotent_witness :
    update specSegmentEntry 1 5
        (CollectionUpdateOperations.PayloadOperation
          (PayloadOps.SetPayload [("c", "r")] [1]))
        [[(1, ⟨5, [], [("c", "r")]⟩)]] =
      (Except.ok 0, [[(1, ⟨5, [], [("c", "r")]⟩)]]) :=
  update_replay_idempotent 0 1 5
    (CollectionUpdateOperations.PayloadOperation
      (PayloadOps.SetPayload [("c", "r")] [1]))
    [[(1, ⟨0, [], []⟩)]] [[(1, ⟨5, [], [("c", "r")]⟩)]] 1
    (List.cons_ne_nil _ _) rfl

end Qdrant
